import Mathlib

/-
Verification of the avwohl-cpmemu emulator against its specification.

The development shallowly embeds the relevant parts of the C++ sources:
  * src/qkz80_reg_set.cc — the flag engine (bit-by-bit ADD/SUB simulation,
    flag-byte builders, the mode-keyed normalizer fix_flags, block-load flags);
  * src/qkz80.cc — register access, the CP flag override, the LDIR handler,
    and the DD/FD prefix decoding loop of execute();
  * src/cpmemu.cc — the EOL read/write translators and the BDOS file layer
    (open/close/read-sequential/write-sequential/reset-disk/reset-drive).

Machine bytes are Nat with explicit truncation (% 256 / % 65536) where the
C++ types (qkz80_uint8 / qkz80_uint16) truncate.  Host I/O (FILE*) is
modelled by explicit state: an open host file carries the not-yet-read byte
list and the list of bytes written through it; fopen is an oracle parameter
giving the resolved mode/eol/content, so both the success and the failure
path of the source are represented.
-/

set_option maxRecDepth 4000
set_option synthInstance.maxHeartbeats 400000
set_option synthInstance.maxSize 512

/- Flag bit masks.  The header qkz80_cpu_flags.h is not part of src/, but the
bit layout is pinned by src/qkz80.cc debug_dump_regs (S=0x80, Z=0x40, Y=0x20,
H=0x10, X=0x08, P=0x04, N=0x02, C=0x01) and by the fix_flags comment in
src/qkz80_reg_set.cc ("Clear bits 3,5 ... force bit 1 to 1"), which fixes
UNUSED1=0x02, UNUSED2=0x08, UNUSED3=0x20 and AC=H=0x10. -/
namespace qkz80_cpu_flags

def CY : Nat := 0x01

def N : Nat := 0x02

def P : Nat := 0x04

def X : Nat := 0x08

def H : Nat := 0x10

def AC : Nat := 0x10

def Y : Nat := 0x20

def Z : Nat := 0x40

def S : Nat := 0x80

def UNUSED1 : Nat := 0x02

def UNUSED2 : Nat := 0x08

def UNUSED3 : Nat := 0x20

end qkz80_cpu_flags

/-- Bitwise complement of a byte mask, as the C++ `~m` acts on 8-bit data
(`new_flags &= ~(...)` on a qkz80_uint8, and `~minuend & ma` with ma < 256). -/
def mask8_not (m : Nat) : Nat := 0xFF ^^^ m

/-- parity_info_type::even_parity: count the one bits of the low byte,
return 1 when the count is even (src/qkz80_reg_set.cc:9). -/
def bits_on (i : Nat) : Nat :=
  if h : i = 0 then 0
  else (if i &&& 1 ≠ 0 then 1 else 0) + bits_on (i >>> 1)
decreasing_by
  simp only [Nat.shiftRight_eq_div_pow, pow_one]
  exact Nat.div_lt_self (Nat.pos_of_ne_zero h) one_lt_two

def even_parity (i : Nat) : Nat :=
  if bits_on (i &&& 0xFF) % 2 = 0 then 1 else 0

/-- parity_info_type::get_parity_of_byte (the table lookup computes
even_parity of the masked byte). -/
def get_parity_of_byte (b : Nat) : Nat := even_parity (b &&& 0xFF)

/-- Loop-carried state of the bit-by-bit adders in src/qkz80_reg_set.cc
(locals result, cy, ma and the flags recorded at i = 3, 6, 7). -/
structure BitLoopSt where
  result : Nat
  cy : Nat
  ma : Nat
  flag_h : Nat
  c6 : Nat
  flag_c : Nat

/-- The outputs of add8_bitwise / sub8_bitwise. -/
structure Bit8Out where
  result : Nat
  flag_h : Nat
  flag_c : Nat
  flag_v : Nat
  flag_x : Nat
  flag_y : Nat
  flag_z : Nat
  flag_s : Nat

/-- One iteration of the add8_bitwise loop (src/qkz80_reg_set.cc:623-636). -/
def add8_step (s1 s2 : Nat) (i : Nat) (st : BitLoopSt) : BitLoopSt :=
  let result := st.result ||| ((s1 ^^^ s2 ^^^ st.cy) &&& st.ma)
  let cy := ((s2 &&& st.cy) ||| (s1 &&& (s2 ||| st.cy))) &&& st.ma
  let flag_h := if i = 3 then (if cy ≠ 0 then 1 else 0) else st.flag_h
  let c6 := if i = 6 then (if cy ≠ 0 then 1 else 0) else st.c6
  let flag_c := if i = 7 then (if cy ≠ 0 then 1 else 0) else st.flag_c
  ⟨result, cy <<< 1, st.ma <<< 1, flag_h, c6, flag_c⟩

/-- One iteration of the sub8_bitwise loop (src/qkz80_reg_set.cc:662-674).
The C++ `~minuend & ma` sees only the low 8 bits because ma ≤ 0x80, so the
complement is taken on the byte. -/
def sub8_step (minuend subtrahend : Nat) (i : Nat) (st : BitLoopSt) : BitLoopSt :=
  let result := st.result ||| ((minuend ^^^ subtrahend ^^^ st.cy) &&& st.ma)
  let cy := ((subtrahend &&& st.cy) ||| ((0xFF ^^^ minuend) &&& (subtrahend ||| st.cy))) &&& st.ma
  let flag_h := if i = 3 then (if cy ≠ 0 then 1 else 0) else st.flag_h
  let c6 := if i = 6 then (if cy ≠ 0 then 1 else 0) else st.c6
  let flag_c := if i = 7 then (if cy ≠ 0 then 1 else 0) else st.flag_c
  ⟨result, cy <<< 1, st.ma <<< 1, flag_h, c6, flag_c⟩

/-- The derived outputs computed after the loop (overflow = c7 xor c6,
X/Y from result bits 3/5, Z, S). -/
def bit8_finish (st : BitLoopSt) : Bit8Out :=
  { result := st.result
    flag_h := st.flag_h
    flag_c := st.flag_c
    flag_v := st.flag_c ^^^ st.c6
    flag_x := if st.result &&& 0x08 ≠ 0 then 1 else 0
    flag_y := if st.result &&& 0x20 ≠ 0 then 1 else 0
    flag_z := if st.result = 0 then 1 else 0
    flag_s := if st.result &&& 0x80 ≠ 0 then 1 else 0 }

/-- add8_bitwise (src/qkz80_reg_set.cc:614): the fixed 8-iteration loop. -/
def add8_bitwise (s1 s2 carry_in : Nat) : Bit8Out :=
  let st0 : BitLoopSt := ⟨0, if carry_in ≠ 0 then 1 else 0, 1, 0, 0, 0⟩
  let f := add8_step s1 s2
  bit8_finish (f 7 (f 6 (f 5 (f 4 (f 3 (f 2 (f 1 (f 0 st0))))))))

/-- sub8_bitwise (src/qkz80_reg_set.cc:653). -/
def sub8_bitwise (minuend subtrahend borrow_in : Nat) : Bit8Out :=
  let st0 : BitLoopSt := ⟨0, if borrow_in ≠ 0 then 1 else 0, 1, 0, 0, 0⟩
  let f := sub8_step minuend subtrahend
  bit8_finish (f 7 (f 6 (f 5 (f 4 (f 3 (f 2 (f 1 (f 0 st0))))))))

/-- CPU mode discriminant (qkz80_reg_set::CPUMode). -/
inductive CPUMode where
  | MODE_8080
  | MODE_Z80
deriving DecidableEq

/-- qkz80_reg_set::fix_flags (src/qkz80_reg_set.cc:47): in 8080 mode clear
bits 3 and 5 and force bit 1; in Z80 mode the identity. -/
def qkz80_fix_flags (mode : CPUMode) (new_flags : Nat) : Nat :=
  if mode = CPUMode.MODE_8080 then
    (new_flags &&& mask8_not (qkz80_cpu_flags.UNUSED2 ||| qkz80_cpu_flags.UNUSED3)) |||
      qkz80_cpu_flags.UNUSED1
  else
    new_flags

/-- The C++ idiom `if (cond) flags |= mask;`. -/
def setbit (cond : Prop) [Decidable cond] (flags mask : Nat) : Nat :=
  if cond then flags ||| mask else flags

/- The flag byte built by qkz80_reg_set::set_flags_from_sum8
(src/qkz80_reg_set.cc:145) before it is handed to set_flags. -/
open qkz80_cpu_flags in
def flags_from_sum8 (mode : CPUMode) (result val1 val2 carry : Nat) : Nat :=
  let o := add8_bitwise val1 val2 carry
  let flags :=
    setbit (o.flag_y ≠ 0)
      (setbit (o.flag_x ≠ 0)
        (setbit (o.flag_s ≠ 0)
          (setbit (o.flag_z ≠ 0)
            (setbit (o.flag_h ≠ 0)
              (setbit (o.flag_c ≠ 0) 0 CY) H) Z) S) X) Y
  if mode = CPUMode.MODE_Z80 then
    setbit (o.flag_v ≠ 0) flags P
  else
    setbit (get_parity_of_byte (result &&& 0xFF) ≠ 0) flags P

/- The flag byte built by qkz80_reg_set::set_flags_from_diff8
(src/qkz80_reg_set.cc:176).  In 8080 mode H comes from the formula
~(val1 ^ result8 ^ val2) & 0x10 instead of the bitwise borrow. -/
open qkz80_cpu_flags in
def flags_from_diff8 (mode : CPUMode) (result val1 val2 carry : Nat) : Nat :=
  let o := sub8_bitwise val1 val2 carry
  let fc := setbit (o.flag_c ≠ 0) 0 CY
  let fh :=
    if mode = CPUMode.MODE_Z80 then
      setbit (o.flag_h ≠ 0) fc H
    else
      setbit (mask8_not (val1 ^^^ (result &&& 0xFF) ^^^ val2) &&& 0x10 ≠ 0) fc H
  let flags :=
    setbit (o.flag_y ≠ 0)
      (setbit (o.flag_x ≠ 0)
        (setbit (o.flag_s ≠ 0)
          (setbit (o.flag_z ≠ 0) fh Z) S) X) Y ||| N
  if mode = CPUMode.MODE_Z80 then
    setbit (o.flag_v ≠ 0) flags P
  else
    setbit (get_parity_of_byte (result &&& 0xFF) ≠ 0) flags P

/-- The value `rega - regb - carry` computed by the call sites on the 32-bit
unsigned qkz80_big_uint (wrap-around subtraction). -/
def big_diff (a b c : Nat) : Nat := (a + 4294967296 - b - c) % 4294967296

/-- The register bank, restricted to the fields the claims touch.  The pair
class qkz80_reg_pair (header not in src/) stores a 16-bit value with low/high
byte access; AF is represented by its two bytes A and F (raw stored flags). -/
structure qkz80_reg_set where
  A : Nat
  F : Nat
  BC : Nat
  DE : Nat
  HL : Nat
  SP : Nat
  PC : Nat
  IFF2 : Nat
  cpu_mode : CPUMode

/-- qkz80_reg_set::get_flags: always returns fix_flags of the stored byte. -/
def get_flags (rs : qkz80_reg_set) : Nat := qkz80_fix_flags rs.cpu_mode rs.F

/-- qkz80_reg_set::set_flags: stores fix_flags of the new byte. -/
def set_flags (rs : qkz80_reg_set) (new_flags : Nat) : qkz80_reg_set :=
  { rs with F := qkz80_fix_flags rs.cpu_mode new_flags }

/-- qkz80_reg_set::set_flags_from_sum8 as a state update. -/
def set_flags_from_sum8 (rs : qkz80_reg_set) (result val1 val2 carry : Nat) : qkz80_reg_set :=
  set_flags rs (flags_from_sum8 rs.cpu_mode result val1 val2 carry)

/-- qkz80_reg_set::set_flags_from_diff8 as a state update. -/
def set_flags_from_diff8 (rs : qkz80_reg_set) (result val1 val2 carry : Nat) : qkz80_reg_set :=
  set_flags rs (flags_from_diff8 rs.cpu_mode result val1 val2 carry)

/-- The qkz80_MK_INT16 macro (src/qkz80_types.h). -/
def qkz80_mk_int16 (low high : Nat) : Nat :=
  ((high &&& 0xFF) <<< 8) ||| (low &&& 0xFF)

/-- qkz80::get_reg16 for selector regp_AF (src/qkz80.cc:246): the low byte is
regs.get_flags(), the high byte is A. -/
def get_reg16_AF (rs : qkz80_reg_set) : Nat :=
  qkz80_mk_int16 (get_flags rs) rs.A

/- The CP flag sequence of qkz80::execute (src/qkz80.cc:1744-1760, repeated
verbatim for CP (IX/IY+d)/half-registers at 924-939 and for the
compare-immediate at 2059-2074): run set_flags_from_diff8 on A and the
operand, then overwrite X and Y from bits 3 and 5 of the operand. -/
open qkz80_cpu_flags in
def cp_exec (rs : qkz80_reg_set) (regb : Nat) : qkz80_reg_set :=
  let rega := rs.A
  let diff := big_diff rega regb 0
  let rs1 := set_flags_from_diff8 rs diff rega regb 0
  let flags := get_flags rs1
  let flags := flags &&& mask8_not (X ||| Y)
  let flags := setbit (regb &&& 0x08 ≠ 0) flags X
  let flags := setbit (regb &&& 0x20 ≠ 0) flags Y
  set_flags rs1 flags

/- qkz80_reg_set::set_flags_from_block_ld (src/qkz80_reg_set.cc:432):
preserve S/Z/C, clear H and N, P iff bc_after nonzero, and in Z80 mode X from
bit 3 and Y from bit 1 of the byte-truncated A + copied_byte. -/
open qkz80_cpu_flags in
def set_flags_from_block_ld (rs : qkz80_reg_set) (a_val copied_byte bc_after : Nat) :
    qkz80_reg_set :=
  let flags := get_flags rs
  let preserved := flags &&& (S ||| Z ||| CY)
  let flags := setbit (bc_after ≠ 0) preserved P
  let flags :=
    if rs.cpu_mode = CPUMode.MODE_Z80 then
      let n := (a_val + copied_byte) % 256
      setbit (n &&& 0x02 ≠ 0) (setbit (n &&& 0x08 ≠ 0) flags X) Y
    else flags
  set_flags rs flags

/-- The 64 KiB memory façade: fetch_mem / store_mem index with a
qkz80_uint16 address and move qkz80_uint8 data. -/
def fetch_mem (m : Nat → Nat) (addr : Nat) : Nat := m (addr % 65536)

def store_mem (m : Nat → Nat) (addr v : Nat) : Nat → Nat :=
  fun x => if x = addr % 65536 then v % 256 else m x

/-- A CPU-plus-memory machine state for the LDIR scenario. -/
structure qkz80_machine where
  regs : qkz80_reg_set
  mem : Nat → Nat

/-- One call of qkz80::execute on a state whose PC points at the two bytes
ED B0, i.e. the LDIR handler (src/qkz80.cc:580-593).  PC has been advanced
past the two opcode bytes by the pulls; the body copies one byte from (HL)
to (DE), increments HL and DE, decrements BC, updates the block-load flags
with the post-decrement BC, and rewinds PC by 2 when the pre-decrement BC
is not 1. -/
def ldir_step (s : qkz80_machine) : qkz80_machine :=
  let pc2 := (s.regs.PC + 2) % 65536
  let hl := s.regs.HL
  let de := s.regs.DE
  let bc := s.regs.BC
  let byte_val := fetch_mem s.mem hl
  let mem := store_mem s.mem de byte_val
  let bc' := (bc + 65536 - 1) % 65536
  let regs := { s.regs with HL := (hl + 1) % 65536, DE := (de + 1) % 65536,
                            BC := bc', PC := pc2 }
  let regs := set_flags_from_block_ld regs regs.A byte_val bc'
  let regs := if bc ≠ 1 then { regs with PC := (pc2 + 65536 - 2) % 65536 } else regs
  ⟨regs, mem⟩

/-- n calls of execute, each taken at the LDIR instruction. -/
def ldir_run : Nat → qkz80_machine → qkz80_machine
  | 0, s => s
  | n+1, s => ldir_step (ldir_run n s)

/-- File modes of the CP/M file layer (cpmemu.cc FileMode). -/
inductive FileMode where
  | MODE_TEXT
  | MODE_BINARY
  | MODE_AUTO
deriving DecidableEq

/-- CPM_EOF is 0x1A (^Z). -/
def CPM_EOF : Nat := 0x1A

/-- An OpenFile entry (cpmemu.cc:200).  The host FILE* is modelled by a
handle identity plus the not-yet-read bytes (input) and the bytes written
through it (output); write_buffer mirrors the source field (it is declared
and flushed on close but never appended to anywhere in cpmemu.cc). -/
structure OpenFile where
  handle : Nat
  mode : FileMode
  eol_convert : Bool
  eof_seen : Bool
  write_mode : Bool
  write_buffer : List Nat
  input : List Nat
  output : List Nat

/-- The text-with-conversion read loop of CPMEmulator::read_with_conversion
(src/cpmemu.cc:649-677): each host LF becomes CR LF if two slots remain
(otherwise the byte is pushed back and the loop ends), a ^Z sets the sticky
EOF and ends the loop, anything else is copied.  Returns (produced bytes,
remaining input, eof_seen). -/
def read_conv_loop (size : Nat) (input out : List Nat) : List Nat × List Nat × Bool :=
  if out.length < size then
    match input with
    | [] => (out, [], false)
    | ch :: rest =>
      if ch = 10 then
        if out.length + 1 < size then read_conv_loop size rest (out ++ [13, 10])
        else (out, ch :: rest, false)
      else if ch = CPM_EOF then (out, rest, true)
      else read_conv_loop size rest (out ++ [ch])
  else (out, input, false)
termination_by input.length
decreasing_by
  all_goals simp
  all_goals omega

/-- CPMEmulator::read_with_conversion (src/cpmemu.cc:626).  Returns the bytes
delivered to the caller and the open-file state after the call (the host
stream position advances by what fread/fgetc consumed). -/
def read_with_conversion (of : OpenFile) (size : Nat) : List Nat × OpenFile :=
  if of.eof_seen then ([], of)
  else if of.mode = FileMode.MODE_BINARY ∨ of.eol_convert = false then
    let chunk := of.input.take size
    let rest := of.input.drop size
    if of.mode = FileMode.MODE_TEXT then
      let pre := chunk.takeWhile (fun ch => ch ≠ CPM_EOF)
      if pre.length < chunk.length then (pre, { of with input := rest, eof_seen := true })
      else (chunk, { of with input := rest })
    else (chunk, { of with input := rest })
  else
    let r := read_conv_loop size of.input []
    (r.1, { of with input := r.2.1, eof_seen := r.2.2 })

/-- The text-mode write loop of CPMEmulator::write_with_conversion
(src/cpmemu.cc:687-709): stop at ^Z; a CR immediately followed by LF is
skipped; everything else is written. -/
def write_conv_text : List Nat → List Nat
  | [] => []
  | 26 :: _ => []
  | 13 :: 10 :: rest => write_conv_text (10 :: rest)
  | ch :: rest => ch :: write_conv_text rest

/-- CPMEmulator::write_with_conversion (src/cpmemu.cc:680): returns the
fwrite/fputc count and the open-file state with the bytes appended. -/
def write_with_conversion (of : OpenFile) (buffer : List Nat) : Nat × OpenFile :=
  if of.mode = FileMode.MODE_BINARY ∨ of.eol_convert = false then
    (buffer.length, { of with output := of.output ++ buffer })
  else
    let w := write_conv_text buffer
    (w.length, { of with output := of.output ++ w })

/-- CPMEmulator::pad_to_128 (src/cpmemu.cc:715): pad with ^Z up to 128. -/
def pad_to_128 (buffer : List Nat) : List Nat :=
  if buffer.length < 128 then buffer ++ List.replicate (128 - buffer.length) CPM_EOF
  else buffer

/-- The emulator state relevant to the BDOS file claims.  open_files models
the std::map keyed on the FCB address (keys unique); host_open_handles is
the set of host FILE* handles currently open, and next_handle makes fopen
return a fresh handle. -/
structure CPMEmulator where
  open_files : List (Nat × OpenFile)
  mem : Nat → Nat
  regA : Nat
  current_dma : Nat
  current_drive : Nat
  current_user : Nat
  host_open_handles : List Nat
  next_handle : Nat

/-- std::map::find on the FCB-keyed table. -/
def find_open (fs : List (Nat × OpenFile)) (fcb : Nat) : Option OpenFile :=
  (fs.find? (fun p => p.1 = fcb)).map (fun p => p.2)

/-- std::map::operator[] assignment: replace the entry when present,
otherwise insert.  (Keys are unique, matching std::map.) -/
def table_set : List (Nat × OpenFile) → Nat → OpenFile → List (Nat × OpenFile)
  | [], fcb, of => [(fcb, of)]
  | (k, v) :: rest, fcb, of =>
    if k = fcb then (k, of) :: rest else (k, v) :: table_set rest fcb of

/-- std::map::erase of the entry with the given key (keys are unique). -/
def table_erase (fs : List (Nat × OpenFile)) (fcb : Nat) : List (Nat × OpenFile) :=
  fs.filter (fun p => p.1 ≠ fcb)

/-- A guest-memory byte store through cpu->get_mem() (uint8 array cell). -/
def store_mem8 (m : Nat → Nat) (addr v : Nat) : Nat → Nat :=
  fun x => if x = addr then v % 256 else m x

/-- fclose of one handle: it leaves the set of open host handles. -/
def host_close (handles : List Nat) (h : Nat) : List Nat :=
  handles.filter (fun x => x ≠ h)

/-- CPMEmulator::bdos_open_file (src/cpmemu.cc:1394).  The name resolution
(find_unix_file_ex) and fopen are host effects, abstracted by the oracle
`res`: none when the file is not found or both fopen attempts fail, some
(mode, eol, content) when a host file opens.  On success a fresh host handle
is recorded, the entry is stored under the FCB address (replacing any
previous entry WITHOUT closing its handle — the source has no close here),
FCB extent and record count are seeded, and A := 0. -/
def bdos_open_file (res : Option (FileMode × Bool × List Nat)) (fcb : Nat)
    (s : CPMEmulator) : CPMEmulator :=
  match res with
  | none => { s with regA := 0xFF }
  | some (mode, eol, content) =>
    let of : OpenFile :=
      { handle := s.next_handle, mode := mode, eol_convert := eol, eof_seen := false,
        write_mode := false, write_buffer := [], input := content, output := [] }
    let mem := store_mem8 s.mem (fcb + 12) 0
    let mem := store_mem8 mem (fcb + 15) 0x80
    { s with open_files := table_set s.open_files fcb of,
             host_open_handles := s.next_handle :: s.host_open_handles,
             next_handle := s.next_handle + 1,
             mem := mem, regA := 0 }

/-- CPMEmulator::bdos_close_file (src/cpmemu.cc:1441): when the FCB is in the
table, flush buffered writes (a no-op: write_buffer is never filled anywhere
in cpmemu.cc), fclose the handle and erase the entry; in every case A := 0. -/
def bdos_close_file (fcb : Nat) (s : CPMEmulator) : CPMEmulator :=
  match find_open s.open_files fcb with
  | some of =>
    { s with open_files := table_erase s.open_files fcb,
             host_open_handles := host_close s.host_open_handles of.handle,
             regA := 0 }
  | none => { s with regA := 0 }

/-- memcpy of a byte list into guest memory at a base address. -/
def write_block : (Nat → Nat) → Nat → List Nat → (Nat → Nat)
  | m, _, [] => m
  | m, base, x :: xs => write_block (store_mem8 m base x) (base + 1) xs

/-- CPMEmulator::bdos_read_sequential (src/cpmemu.cc:1475): A=0xFF when the
FCB is not open; otherwise read up to 128 bytes through the translator.  If
nothing was read or the sticky EOF was hit, A := 1 and the DMA buffer is NOT
touched; otherwise the bytes are padded to 128 with ^Z, copied to the DMA
buffer and A := 0.  The FCB current-record byte (offset 32) is incremented
in both cases. -/
def bdos_read_sequential (fcb : Nat) (s : CPMEmulator) : CPMEmulator :=
  match find_open s.open_files fcb with
  | none => { s with regA := 0xFF }
  | some of =>
    let r := read_with_conversion of 128
    let s1 := { s with open_files := table_set s.open_files fcb r.2 }
    let s2 :=
      if r.1.length = 0 ∨ r.2.eof_seen then { s1 with regA := 1 }
      else { s1 with mem := write_block s1.mem s1.current_dma (pad_to_128 r.1), regA := 0 }
    { s2 with mem := store_mem8 s2.mem (fcb + 32) ((s2.mem (fcb + 32) + 1) % 256) }

/-- The tail of CPMEmulator::bdos_write_sequential once an open entry exists
(src/cpmemu.cc:1517-1533): set write_mode, push the 128 DMA bytes through the
translator, A := 0 iff at least one byte was written, and increment the FCB
current-record byte. -/
def dma_block (s : CPMEmulator) : List Nat :=
  (List.range 128).map (fun i => s.mem (s.current_dma + i) % 256)

def write_seq_body (fcb : Nat) (of : OpenFile) (s : CPMEmulator) : CPMEmulator :=
  let of1 := { of with write_mode := true }
  let r := write_with_conversion of1 (dma_block s)
  let s1 := { s with open_files := table_set s.open_files fcb r.2 }
  let s2 := if r.1 > 0 then { s1 with regA := 0 } else { s1 with regA := 0xFF }
  { s2 with mem := store_mem8 s2.mem (fcb + 32) ((s2.mem (fcb + 32) + 1) % 256) }

/-- CPMEmulator::bdos_write_sequential (src/cpmemu.cc:1506): when the FCB is
not in the table it calls bdos_open_file (which OPENS an existing host file;
it does not create one) and returns A=0xFF if the entry still does not
exist; otherwise it proceeds with the write.  The oracle `res` feeds the
nested bdos_open_file call. -/
def bdos_write_sequential (res : Option (FileMode × Bool × List Nat)) (fcb : Nat)
    (s : CPMEmulator) : CPMEmulator :=
  match find_open s.open_files fcb with
  | some of => write_seq_body fcb of s
  | none =>
    let s1 := bdos_open_file res fcb s
    match find_open s1.open_files fcb with
    | none => { s1 with regA := 0xFF }
    | some of => write_seq_body fcb of s1

/-- The close-all loop shared by bdos_reset_disk and bdos_reset_drive:
fclose every tracked handle. -/
def close_all_handles (fs : List (Nat × OpenFile)) (handles : List Nat) : List Nat :=
  fs.foldl (fun hs p => host_close hs p.2.handle) handles

/-- CPMEmulator::bdos_reset_disk (src/cpmemu.cc:1788): close all open files,
clear the table, reset drive and user. -/
def bdos_reset_disk (s : CPMEmulator) : CPMEmulator :=
  { s with host_open_handles := close_all_handles s.open_files s.host_open_handles,
           open_files := [], current_drive := 0, current_user := 0 }

/-- CPMEmulator::bdos_reset_drive (src/cpmemu.cc:2094): same close-all loop,
clear the table. -/
def bdos_reset_drive (s : CPMEmulator) : CPMEmulator :=
  { s with host_open_handles := close_all_handles s.open_files s.host_open_handles,
           open_files := [] }

/-- Result of the DD/FD prefix-consuming loop of qkz80::execute
(src/qkz80.cc:361-382). -/
structure ScanOut where
  hasDD : Bool
  hasFD : Bool
  hasCB : Bool
  index_offset : Nat
  opcode : Nat
  pc : Nat

/-- The loop `while ((opcode == 0xdd || opcode == 0xfd) && prefix_count < 4)`
in Z80 mode: fuel is 4 - prefix_count.  Each pass records which prefix won,
pulls the next byte, and a CB byte pulls the displacement and terminal
opcode and ends the chain. -/
def ddfd_scan (mem : Nat → Nat) : Nat → Bool → Bool → Nat → Nat → ScanOut
  | 0, hasDD, hasFD, opcode, pc => ⟨hasDD, hasFD, false, 0, opcode, pc⟩
  | fuel+1, hasDD, hasFD, opcode, pc =>
    if opcode = 0xDD ∨ opcode = 0xFD then
      let hasDD := decide (opcode = 0xDD)
      let hasFD := decide (opcode = 0xFD)
      let op2 := fetch_mem mem pc
      let pc2 := (pc + 1) % 65536
      if op2 = 0xCB then
        let disp := fetch_mem mem pc2
        let op3 := fetch_mem mem ((pc2 + 1) % 65536)
        ⟨hasDD, hasFD, true, disp, op3, (pc2 + 2) % 65536⟩
      else ddfd_scan mem fuel hasDD hasFD op2 pc2
    else ⟨hasDD, hasFD, false, 0, opcode, pc⟩

/-- What a call of qkz80::execute does at the dispatch level. -/
inductive ExecOutcome where
  | normal
  | fatalExit (code : Nat) (opcode : Nat) (pc : Nat)
deriving DecidableEq

/-- The Z80-mode dispatch skeleton of qkz80::execute: prefix scan, the ED and
CB checks, the DD/FD ALU special block (opcodes 0x80..0xBF with selector
H/L/(HL)), then the main switch.  The main switch has a case label for every
byte except 0xCB, 0xDD, 0xED, 0xFD (verified against the case list of
src/qkz80.cc:948-2074), so exactly those four reach the `default:` branch,
which prints the opcode and PC and calls exit(1)
(src/qkz80.cc:2076-2082). -/
def execute_decode (mem : Nat → Nat) (pc0 : Nat) : ExecOutcome :=
  let opcode0 := fetch_mem mem pc0
  let pc1 := (pc0 + 1) % 65536
  let sc := ddfd_scan mem 4 false false opcode0 pc1
  if sc.opcode = 0xED then ExecOutcome.normal
  else
    let hasCB := if sc.opcode = 0xCB then true else sc.hasCB
    let opcode := if sc.opcode = 0xCB then fetch_mem mem sc.pc else sc.opcode
    let pc := if sc.opcode = 0xCB then (sc.pc + 1) % 65536 else sc.pc
    if hasCB then ExecOutcome.normal
    else if (sc.hasDD || sc.hasFD) = true ∧ 0x80 ≤ opcode ∧ opcode ≤ 0xBF ∧
        (opcode &&& 0x7 = 4 ∨ opcode &&& 0x7 = 5 ∨ opcode &&& 0x7 = 6) then
      ExecOutcome.normal
    else if opcode = 0xCB ∨ opcode = 0xDD ∨ opcode = 0xED ∨ opcode = 0xFD then
      ExecOutcome.fatalExit 1 opcode pc
    else ExecOutcome.normal

-- ## Reference definitions (spec side)

/-- Indicator of a bit of a value. -/
def bitOf (x i : Nat) : Nat := if x.testBit i then 1 else 0

/-- Reference flag byte for 8-bit addition with carry-in, from the hardware
carry propagation: C is the carry out of bit 7, H the carry out of bit 3,
overflow the xor of the carries out of bits 7 and 6; bits are laid out
S Z Y H X P N C.  In Z80 mode P is the overflow, X/Y are bits 3/5 of the
result and N is 0; in 8080 mode P is the parity of the result byte, bits 3
and 5 read 0 and bit 1 reads 1. -/
def reference_add8_flags (mode : CPUMode) (a b cin : Nat) : Nat :=
  let res := (a + b + cin) % 256
  let c := if 256 ≤ a + b + cin then 1 else 0
  let h := if 16 ≤ a % 16 + b % 16 + cin then 1 else 0
  let c6 := if 128 ≤ a % 128 + b % 128 + cin then 1 else 0
  let v := c ^^^ c6
  let z := if res = 0 then 1 else 0
  let s := bitOf res 7
  match mode with
  | .MODE_Z80 =>
      s * 0x80 + z * 0x40 + bitOf res 5 * 0x20 + h * 0x10 +
        bitOf res 3 * 0x08 + v * 0x04 + 0 * 0x02 + c * 0x01
  | .MODE_8080 =>
      s * 0x80 + z * 0x40 + 0 * 0x20 + h * 0x10 +
        0 * 0x08 + even_parity res * 0x04 + 1 * 0x02 + c * 0x01

/-- Reference flag byte for 8-bit subtraction with borrow-in.  C is the
borrow out of bit 7, overflow the xor of the borrows out of bits 7 and 6,
N is set.  In Z80 mode H is the borrow out of bit 3; in 8080 mode the
hardware adds the complement, so its half-carry is the complement of that
borrow.  In 8080 mode P is parity, bits 3/5 read 0 and bit 1 reads 1. -/
def reference_sub8_flags (mode : CPUMode) (a b cin : Nat) : Nat :=
  let res := (a + 256 - b - cin) % 256
  let c := if a < b + cin then 1 else 0
  let h := if a % 16 < b % 16 + cin then 1 else 0
  let c6 := if a % 128 < b % 128 + cin then 1 else 0
  let v := c ^^^ c6
  let z := if res = 0 then 1 else 0
  let s := bitOf res 7
  match mode with
  | .MODE_Z80 =>
      s * 0x80 + z * 0x40 + bitOf res 5 * 0x20 + h * 0x10 +
        bitOf res 3 * 0x08 + v * 0x04 + 1 * 0x02 + c * 0x01
  | .MODE_8080 =>
      s * 0x80 + z * 0x40 + 0 * 0x20 + (1 - h) * 0x10 +
        0 * 0x08 + even_parity res * 0x04 + 1 * 0x02 + c * 0x01

-- ## Closed forms for the carry/borrow chains (proof machinery)

/-- Carry into bit i of a + b + c0. -/
def carryA (a b c0 i : Nat) : Nat := (a % 2^i + b % 2^i + c0) / 2^i

/-- Borrow into bit i of a - b - c0. -/
def borS (a b c0 i : Nat) : Nat := if a % 2^i < b % 2^i + c0 then 1 else 0

/-- Low i bits of a - b - c0 (two's-complement form). -/
def subRef (a b c0 i : Nat) : Nat := (a % 2^i + 2^i - (b % 2^i + c0)) % 2^i

/-- Iterated add8_step, indices 0..i-1. -/
def add8_iter (a b c0 : Nat) : Nat → BitLoopSt
  | 0 => ⟨0, if c0 ≠ 0 then 1 else 0, 1, 0, 0, 0⟩
  | i+1 => add8_step a b i (add8_iter a b c0 i)

/-- Iterated sub8_step, indices 0..i-1. -/
def sub8_iter (a b c0 : Nat) : Nat → BitLoopSt
  | 0 => ⟨0, if c0 ≠ 0 then 1 else 0, 1, 0, 0, 0⟩
  | i+1 => sub8_step a b i (sub8_iter a b c0 i)

/- Concrete states used by the claim instantiations. -/
def c5_file : OpenFile :=
  { handle := 0, mode := FileMode.MODE_TEXT, eol_convert := true, eof_seen := false,
    write_mode := false, write_buffer := [], input := [97, 10, 98, 10], output := [] }

def eof_file : OpenFile :=
  { handle := 0, mode := FileMode.MODE_TEXT, eol_convert := true, eof_seen := true,
    write_mode := false, write_buffer := [], input := [], output := [] }

def c6_state : CPMEmulator :=
  { open_files := [(512, eof_file)], mem := fun _ => 0, regA := 0, current_dma := 128,
    current_drive := 0, current_user := 0, host_open_handles := [0], next_handle := 1 }

def c7_state : CPMEmulator :=
  { open_files := [], mem := fun _ => 26, regA := 0, current_dma := 128,
    current_drive := 0, current_user := 0, host_open_handles := [], next_handle := 0 }

def c9_old_file : OpenFile :=
  { handle := 7, mode := FileMode.MODE_BINARY, eol_convert := false, eof_seen := false,
    write_mode := false, write_buffer := [], input := [], output := [] }

def c9_state : CPMEmulator :=
  { open_files := [(512, c9_old_file)], mem := fun _ => 0, regA := 0, current_dma := 128,
    current_drive := 0, current_user := 0, host_open_handles := [7], next_handle := 8 }

def c1_regs : qkz80_reg_set :=
  { A := 0, F := 0, BC := 0, DE := 0, HL := 0, SP := 0, PC := 0, IFF2 := 0,
    cpu_mode := CPUMode.MODE_Z80 }

def c2_regs : qkz80_reg_set :=
  { A := 0x33, F := 0, BC := 0, DE := 0, HL := 0, SP := 0, PC := 0, IFF2 := 0,
    cpu_mode := CPUMode.MODE_Z80 }

def c3_regs : qkz80_reg_set :=
  { A := 0, F := 0xFF, BC := 0, DE := 0, HL := 0, SP := 0, PC := 0, IFF2 := 0,
    cpu_mode := CPUMode.MODE_8080 }

def c4_machine : qkz80_machine :=
  { regs := { A := 0, F := 0xFF, BC := 0x100, DE := 0x2000, HL := 0x1000, SP := 0,
              PC := 0x100, IFF2 := 0, cpu_mode := CPUMode.MODE_Z80 },
    mem := fun a => a % 256 }

-- ## Proof machinery

lemma modCase {N M : Nat} (h : N < 2*M) : N % M = if N < M then N else N - M := by
  split_ifs with h1
  · exact Nat.mod_eq_of_lt h1
  · rw [Nat.mod_eq_sub_mod (le_of_not_lt h1), Nat.mod_eq_of_lt (by omega)]

lemma carryA_lt (a b c0 : Nat) (hc0 : c0 < 2) (i : Nat) : carryA a b c0 i < 2 := by
  unfold carryA
  rw [Nat.div_lt_iff_lt_mul (Nat.two_pow_pos i)]
  have h1 : a % 2^i < 2^i := Nat.mod_lt _ (Nat.two_pow_pos i)
  have h2 : b % 2^i < 2^i := Nat.mod_lt _ (Nat.two_pow_pos i)
  omega

lemma carryA_zero (a b c0 : Nat) : carryA a b c0 0 = c0 := by
  simp [carryA, Nat.mod_one]

lemma borS_lt (a b c0 i : Nat) : borS a b c0 i < 2 := by
  unfold borS; split <;> omega

lemma borS_zero (a b c0 : Nat) : borS a b c0 0 = if c0 ≠ 0 then 1 else 0 := by
  simp only [borS, pow_zero, Nat.mod_one]
  split_ifs <;> omega

lemma mod_add_decomp (a b c0 i : Nat) :
    a % 2^i + b % 2^i + c0 = carryA a b c0 i * 2^i + (a+b+c0) % 2^i := by
  have h1 : (a % 2^i + b % 2^i + c0) % 2^i = (a+b+c0) % 2^i :=
    ((Nat.mod_modEq a (2^i)).add (Nat.mod_modEq b (2^i))).add_right c0
  conv_lhs => rw [← Nat.div_add_mod (a % 2^i + b % 2^i + c0) (2^i)]
  rw [h1, carryA, Nat.mul_comm]

lemma sum_div_pow (a b c0 i : Nat) :
    (a+b+c0) / 2^i = a / 2^i + b / 2^i + carryA a b c0 i := by
  have key : a + b + c0 = 2^i * (a / 2^i + b / 2^i + carryA a b c0 i) + (a+b+c0) % 2^i := by
    have ha := Nat.div_add_mod a (2^i)
    have hb := Nat.div_add_mod b (2^i)
    have hd := mod_add_decomp a b c0 i
    rw [Nat.mul_add, Nat.mul_add]
    generalize 2^i * (a / 2^i) = pa at *
    generalize 2^i * (b / 2^i) = pb at *
    generalize hq : 2^i * carryA a b c0 i = pq at *
    rw [Nat.mul_comm] at hq
    omega
  conv_lhs => rw [key]
  rw [Nat.mul_add_div (Nat.two_pow_pos i), Nat.div_eq_of_lt (Nat.mod_lt _ (Nat.two_pow_pos i)),
    Nat.add_zero]

lemma div2_cases (P r m : Nat) (hP : 0 < P) (hr : r < P) (hm : m ≤ 3) :
    (P * m + r) / (P * 2) = if 2 ≤ m then 1 else 0 := by
  interval_cases m
  · rw [Nat.div_eq_of_lt (by omega)]; simp
  · rw [Nat.div_eq_of_lt (by omega)]; simp
  · have he : P * 2 + r = r + P * 2 := by omega
    rw [he, Nat.add_div_right _ (by omega), Nat.div_eq_of_lt (by omega)]
    simp
  · have he : P * 3 + r = (P + r) + P * 2 := by ring
    rw [he, Nat.add_div_right _ (by omega), Nat.div_eq_of_lt (by omega)]
    simp

lemma carryA_succ (a b c0 : Nat) (hc0 : c0 < 2) (i : Nat) :
    carryA a b c0 (i+1) =
      if 2 ≤ a / 2^i % 2 + b / 2^i % 2 + carryA a b c0 i then 1 else 0 := by
  have hP := Nat.two_pow_pos i
  have hr : (a+b+c0) % 2^i < 2^i := Nat.mod_lt _ hP
  have hcA := carryA_lt a b c0 hc0 i
  conv_lhs => rw [carryA, Nat.mod_pow_succ, Nat.mod_pow_succ]
  rw [pow_succ]
  have expand : a % 2 ^ i + 2 ^ i * (a / 2 ^ i % 2) + (b % 2 ^ i + 2 ^ i * (b / 2 ^ i % 2)) + c0
      = 2^i * (a / 2 ^ i % 2 + b / 2 ^ i % 2 + carryA a b c0 i) + (a+b+c0) % 2^i := by
    have hd := mod_add_decomp a b c0 i
    rw [Nat.mul_add, Nat.mul_add]
    generalize 2^i * (a / 2^i % 2) = pa at *
    generalize 2^i * (b / 2^i % 2) = pb at *
    generalize hq : 2^i * carryA a b c0 i = pq at *
    rw [Nat.mul_comm] at hq
    omega
  rw [expand]
  have hm : a / 2 ^ i % 2 + b / 2 ^ i % 2 + carryA a b c0 i ≤ 3 := by
    have h3 : a / 2^i % 2 < 2 := Nat.mod_lt _ (by omega)
    have h4 : b / 2^i % 2 < 2 := Nat.mod_lt _ (by omega)
    omega
  exact div2_cases _ _ _ hP hr hm

lemma sum_mod_succ (a b c0 : Nat) (hc0 : c0 < 2) (i : Nat) :
    (a+b+c0) % 2^(i+1) =
      (a+b+c0) % 2^i + ((a / 2^i % 2 + b / 2^i % 2 + carryA a b c0 i) % 2) * 2^i := by
  rw [Nat.mod_pow_succ, sum_div_pow a b c0 i]
  have hcA := carryA_lt a b c0 hc0 i
  have : (a / 2^i + b / 2^i + carryA a b c0 i) % 2
      = (a / 2^i % 2 + b / 2^i % 2 + carryA a b c0 i) % 2 := by omega
  rw [this, Nat.mul_comm]

lemma subRef_lt (a b c0 i : Nat) : subRef a b c0 i < 2^i :=
  Nat.mod_lt _ (Nat.two_pow_pos i)

lemma subRef_succ (a b c0 : Nat) (hc0 : c0 < 2) (i : Nat) :
    subRef a b c0 (i+1) =
      subRef a b c0 i + ((a / 2^i % 2 + b / 2^i % 2 + borS a b c0 i) % 2) * 2^i := by
  have hP := Nat.two_pow_pos i
  have hx : a % 2^i < 2^i := Nat.mod_lt _ hP
  have hy : b % 2^i < 2^i := Nat.mod_lt _ hP
  simp only [subRef, borS]
  have ha2 : a % 2^(i+1) = a % 2^i + 2^i * (a / 2^i % 2) := Nat.mod_pow_succ
  have hb2 : b % 2^(i+1) = b % 2^i + 2^i * (b / 2^i % 2) := Nat.mod_pow_succ
  rw [ha2, hb2, pow_succ]
  have hpa : 2^i * (a / 2^i % 2) ≤ 2^i * 1 := Nat.mul_le_mul_left _ (by omega)
  have hpb : 2^i * (b / 2^i % 2) ≤ 2^i * 1 := Nat.mul_le_mul_left _ (by omega)
  have hN : a % 2 ^ i + 2 ^ i * (a / 2 ^ i % 2) + 2 ^ i * 2 - (b % 2 ^ i + 2 ^ i * (b / 2 ^ i % 2) + c0)
      < 2 * (2 ^ i * 2) := by
    generalize 2^i * (a / 2^i % 2) = pa at *
    generalize 2^i * (b / 2^i % 2) = pb at *
    omega
  have hN2 : a % 2 ^ i + 2 ^ i - (b % 2 ^ i + c0) < 2 * 2^i := by omega
  rw [modCase hN, modCase hN2]
  have h3 := Nat.mod_two_eq_zero_or_one (a / 2^i)
  have h4 := Nat.mod_two_eq_zero_or_one (b / 2^i)
  rcases h3 with h3 | h3 <;> rcases h4 with h4 | h4 <;> rw [h3, h4] <;>
    split_ifs <;> omega

lemma borS_succ (a b c0 : Nat) (hc0 : c0 < 2) (i : Nat) :
    borS a b c0 (i+1) =
      if 2 ≤ (1 - a / 2^i % 2) + b / 2^i % 2 + borS a b c0 i then 1 else 0 := by
  have hP := Nat.two_pow_pos i
  have hx : a % 2^i < 2^i := Nat.mod_lt _ hP
  have hy : b % 2^i < 2^i := Nat.mod_lt _ hP
  simp only [borS]
  have ha2 : a % 2^(i+1) = a % 2^i + 2^i * (a / 2^i % 2) := Nat.mod_pow_succ
  have hb2 : b % 2^(i+1) = b % 2^i + 2^i * (b / 2^i % 2) := Nat.mod_pow_succ
  rw [ha2, hb2]
  have h3 := Nat.mod_two_eq_zero_or_one (a / 2^i)
  have h4 := Nat.mod_two_eq_zero_or_one (b / 2^i)
  rcases h3 with h3 | h3 <;> rcases h4 with h4 | h4 <;> rw [h3, h4] <;>
    split_ifs <;> omega

lemma testBit_mul_pow (t i : Nat) (ht : t < 2) :
    (t * 2^i).testBit i = decide (t = 1) := by
  interval_cases t
  · simp
  · simp [Nat.testBit_two_pow_self]

lemma xor_bit (a b t i : Nat) (ht : t < 2) :
    (a ^^^ b ^^^ t * 2^i) &&& 2^i = ((a / 2^i % 2 + b / 2^i % 2 + t) % 2) * 2^i := by
  rw [Nat.and_two_pow]
  simp only [Nat.testBit_xor, testBit_mul_pow t i ht]
  simp only [Nat.testBit_to_div_mod]
  have h3 := Nat.mod_two_eq_zero_or_one (a / 2^i)
  have h4 := Nat.mod_two_eq_zero_or_one (b / 2^i)
  rcases h3 with h3 | h3 <;> rcases h4 with h4 | h4 <;> rw [h3, h4] <;>
    interval_cases t <;> simp

lemma maj_bit (a b t i : Nat) (ht : t < 2) :
    ((b &&& t * 2^i) ||| (a &&& (b ||| t * 2^i))) &&& 2^i
      = (if 2 ≤ a / 2^i % 2 + b / 2^i % 2 + t then 1 else 0) * 2^i := by
  rw [Nat.and_two_pow]
  simp only [Nat.testBit_or, Nat.testBit_and, testBit_mul_pow t i ht]
  simp only [Nat.testBit_to_div_mod]
  have h3 := Nat.mod_two_eq_zero_or_one (a / 2^i)
  have h4 := Nat.mod_two_eq_zero_or_one (b / 2^i)
  rcases h3 with h3 | h3 <;> rcases h4 with h4 | h4 <;> rw [h3, h4] <;>
    interval_cases t <;> simp

lemma majNot_bit (a b t i : Nat) (ht : t < 2) (hi : i < 8) :
    ((b &&& t * 2^i) ||| ((0xFF ^^^ a) &&& (b ||| t * 2^i))) &&& 2^i
      = (if 2 ≤ (1 - a / 2^i % 2) + b / 2^i % 2 + t then 1 else 0) * 2^i := by
  rw [Nat.and_two_pow]
  have hff : (0xFF : Nat) = 2^8 - 1 := by norm_num
  simp only [Nat.testBit_or, Nat.testBit_and, Nat.testBit_xor, hff,
    Nat.testBit_two_pow_sub_one, testBit_mul_pow t i ht]
  simp only [Nat.testBit_to_div_mod]
  have h3 := Nat.mod_two_eq_zero_or_one (a / 2^i)
  have h4 := Nat.mod_two_eq_zero_or_one (b / 2^i)
  rcases h3 with h3 | h3 <;> rcases h4 with h4 | h4 <;> rw [h3, h4] <;>
    interval_cases t <;> simp [hi]

lemma or_add_pow (r t i : Nat) (hr : r < 2^i) : r ||| t * 2^i = r + t * 2^i := by
  rw [Nat.or_comm, Nat.mul_comm t (2^i), ← Nat.mul_add_lt_is_or hr, Nat.add_comm]

lemma ind_mul_pow_ne (v P : Nat) (hv : v < 2) (hP : 0 < P) :
    (if v * P ≠ 0 then 1 else 0) = v := by
  have hv2 : v = 0 ∨ v = 1 := by omega
  rcases hv2 with h | h <;> subst h <;> simp [Nat.pos_iff_ne_zero.mp hP]

lemma add8_iter_closed (a b c0 : Nat) (hc0 : c0 < 2) (i : Nat) (hi : i ≤ 8) :
    add8_iter a b c0 i =
      ⟨(a+b+c0) % 2^i, carryA a b c0 i * 2^i, 2^i,
       if 4 ≤ i then carryA a b c0 4 else 0,
       if 7 ≤ i then carryA a b c0 7 else 0,
       if 8 ≤ i then carryA a b c0 8 else 0⟩ := by
  induction i with
  | zero =>
    simp only [add8_iter, pow_zero, Nat.mod_one, Nat.mul_one]
    rw [carryA_zero]
    have : (if c0 ≠ 0 then 1 else 0) = c0 := by split_ifs <;> omega
    rw [this]
    norm_num
  | succ i ih =>
    have hi' : i ≤ 8 := by omega
    rw [add8_iter, ih hi']
    have ht := carryA_lt a b c0 hc0 i
    have hr : (a+b+c0) % 2^i < 2^i := Nat.mod_lt _ (Nat.two_pow_pos i)
    show BitLoopSt.mk _ _ _ _ _ _ = BitLoopSt.mk _ _ _ _ _ _
    have hcy : ((b &&& carryA a b c0 i * 2^i) ||| (a &&& (b ||| carryA a b c0 i * 2^i))) &&& 2^i
        = carryA a b c0 (i+1) * 2^i := by
      rw [maj_bit a b _ i ht, ← carryA_succ a b c0 hc0 i]
    simp only [BitLoopSt.mk.injEq]
    refine ⟨?_, ?_, ?_, ?_, ?_, ?_⟩
    · rw [xor_bit a b _ i ht, or_add_pow _ _ _ hr, ← sum_mod_succ a b c0 hc0 i]
    · rw [hcy, Nat.shiftLeft_eq, pow_one, pow_succ]; ring
    · rw [Nat.shiftLeft_eq, pow_one, pow_succ]
    · rw [hcy, ind_mul_pow_ne _ _ (carryA_lt a b c0 hc0 (i+1)) (Nat.two_pow_pos i)]
      rcases eq_or_ne i 3 with h | h
      · subst h; norm_num
      · simp only [if_neg h]
        split_ifs <;> first | rfl | omega
    · rw [hcy, ind_mul_pow_ne _ _ (carryA_lt a b c0 hc0 (i+1)) (Nat.two_pow_pos i)]
      rcases eq_or_ne i 6 with h | h
      · subst h; norm_num
      · simp only [if_neg h]
        split_ifs <;> first | rfl | omega
    · rw [hcy, ind_mul_pow_ne _ _ (carryA_lt a b c0 hc0 (i+1)) (Nat.two_pow_pos i)]
      rcases eq_or_ne i 7 with h | h
      · subst h; norm_num
      · simp only [if_neg h]
        split_ifs <;> first | rfl | omega

lemma borS_succ_maj (a b c0 : Nat) (hc0 : c0 < 2) (i : Nat) (hi : i < 8) :
    ((b &&& borS a b c0 i * 2^i) ||| ((0xFF ^^^ a) &&& (b ||| borS a b c0 i * 2^i))) &&& 2^i
      = borS a b c0 (i+1) * 2^i := by
  rw [majNot_bit a b _ i (borS_lt a b c0 i) hi, ← borS_succ a b c0 hc0 i]

lemma sub8_iter_closed (a b c0 : Nat) (hc0 : c0 < 2) (i : Nat) (hi : i ≤ 8) :
    sub8_iter a b c0 i =
      ⟨subRef a b c0 i, borS a b c0 i * 2^i, 2^i,
       if 4 ≤ i then borS a b c0 4 else 0,
       if 7 ≤ i then borS a b c0 7 else 0,
       if 8 ≤ i then borS a b c0 8 else 0⟩ := by
  induction i with
  | zero =>
    simp only [sub8_iter, pow_zero, Nat.mul_one]
    rw [borS_zero]
    have hs : subRef a b c0 0 = 0 := by simp [subRef, Nat.mod_one]
    rw [hs]
    norm_num
  | succ i ih =>
    have hi' : i ≤ 8 := by omega
    have hi8 : i < 8 := by omega
    rw [sub8_iter, ih hi']
    have ht := borS_lt a b c0 i
    have hr : subRef a b c0 i < 2^i := subRef_lt a b c0 i
    show BitLoopSt.mk _ _ _ _ _ _ = BitLoopSt.mk _ _ _ _ _ _
    have hcy := borS_succ_maj a b c0 hc0 i hi8
    simp only [BitLoopSt.mk.injEq]
    refine ⟨?_, ?_, ?_, ?_, ?_, ?_⟩
    · rw [xor_bit a b _ i ht, or_add_pow _ _ _ hr, ← subRef_succ a b c0 hc0 i]
    · rw [hcy, Nat.shiftLeft_eq, pow_one, pow_succ]; ring
    · rw [Nat.shiftLeft_eq, pow_one, pow_succ]
    · rw [hcy, ind_mul_pow_ne _ _ (borS_lt a b c0 (i+1)) (Nat.two_pow_pos i)]
      rcases eq_or_ne i 3 with h | h
      · subst h; norm_num
      · simp only [if_neg h]
        split_ifs <;> first | rfl | omega
    · rw [hcy, ind_mul_pow_ne _ _ (borS_lt a b c0 (i+1)) (Nat.two_pow_pos i)]
      rcases eq_or_ne i 6 with h | h
      · subst h; norm_num
      · simp only [if_neg h]
        split_ifs <;> first | rfl | omega
    · rw [hcy, ind_mul_pow_ne _ _ (borS_lt a b c0 (i+1)) (Nat.two_pow_pos i)]
      rcases eq_or_ne i 7 with h | h
      · subst h; norm_num
      · simp only [if_neg h]
        split_ifs <;> first | rfl | omega

lemma add8_bitwise_eq_iter (a b c0 : Nat) :
    add8_bitwise a b c0 = bit8_finish (add8_iter a b c0 8) := rfl

lemma sub8_bitwise_eq_iter (a b c0 : Nat) :
    sub8_bitwise a b c0 = bit8_finish (sub8_iter a b c0 8) := rfl

lemma add8_bitwise_closed (a b c0 : Nat) (hc0 : c0 < 2) :
    add8_bitwise a b c0 =
      { result := (a+b+c0) % 256
        flag_h := carryA a b c0 4
        flag_c := carryA a b c0 8
        flag_v := carryA a b c0 8 ^^^ carryA a b c0 7
        flag_x := if (a+b+c0) % 256 &&& 0x08 ≠ 0 then 1 else 0
        flag_y := if (a+b+c0) % 256 &&& 0x20 ≠ 0 then 1 else 0
        flag_z := if (a+b+c0) % 256 = 0 then 1 else 0
        flag_s := if (a+b+c0) % 256 &&& 0x80 ≠ 0 then 1 else 0 } := by
  rw [add8_bitwise_eq_iter, add8_iter_closed a b c0 hc0 8 (by omega)]
  norm_num [bit8_finish]

lemma sub8_bitwise_closed (a b c0 : Nat) (hc0 : c0 < 2) :
    sub8_bitwise a b c0 =
      { result := subRef a b c0 8
        flag_h := borS a b c0 4
        flag_c := borS a b c0 8
        flag_v := borS a b c0 8 ^^^ borS a b c0 7
        flag_x := if subRef a b c0 8 &&& 0x08 ≠ 0 then 1 else 0
        flag_y := if subRef a b c0 8 &&& 0x20 ≠ 0 then 1 else 0
        flag_z := if subRef a b c0 8 = 0 then 1 else 0
        flag_s := if subRef a b c0 8 &&& 0x80 ≠ 0 then 1 else 0 } := by
  rw [sub8_bitwise_eq_iter, sub8_iter_closed a b c0 hc0 8 (by omega)]
  norm_num [bit8_finish]

lemma bit_indicator (r i : Nat) :
    (if r &&& 2^i ≠ 0 then 1 else 0) = bitOf r i := by
  rw [Nat.and_two_pow, bitOf]
  cases h : r.testBit i <;> simp [h, Nat.pos_iff_ne_zero.mp (Nat.two_pow_pos i)]

lemma carryA_16 (a b c0 : Nat) (ha : a < 256) (hb : b < 256) (hc0 : c0 < 2) :
    carryA a b c0 8 = if 256 ≤ a + b + c0 then 1 else 0 := by
  show (a % 2^8 + b % 2^8 + c0) / 2^8 = _
  norm_num
  rw [Nat.mod_eq_of_lt ha, Nat.mod_eq_of_lt hb]
  split_ifs <;> omega

lemma carryA_nib (a b c0 : Nat) (hc0 : c0 < 2) :
    carryA a b c0 4 = if 16 ≤ a % 16 + b % 16 + c0 then 1 else 0 := by
  show (a % 2^4 + b % 2^4 + c0) / 2^4 = _
  norm_num
  split_ifs <;> omega

lemma carryA_seven (a b c0 : Nat) (hc0 : c0 < 2) :
    carryA a b c0 7 = if 128 ≤ a % 128 + b % 128 + c0 then 1 else 0 := by
  show (a % 2^7 + b % 2^7 + c0) / 2^7 = _
  norm_num
  split_ifs <;> omega

lemma borS_8 (a b c0 : Nat) (ha : a < 256) (hb : b < 256) :
    borS a b c0 8 = if a < b + c0 then 1 else 0 := by
  show (if a % 2^8 < b % 2^8 + c0 then 1 else 0) = _
  norm_num
  rw [Nat.mod_eq_of_lt ha, Nat.mod_eq_of_lt hb]

lemma borS_nib (a b c0 : Nat) :
    borS a b c0 4 = if a % 16 < b % 16 + c0 then 1 else 0 := by
  show (if a % 2^4 < b % 2^4 + c0 then 1 else 0) = _
  norm_num

lemma borS_seven (a b c0 : Nat) :
    borS a b c0 7 = if a % 128 < b % 128 + c0 then 1 else 0 := by
  show (if a % 2^7 < b % 2^7 + c0 then 1 else 0) = _
  norm_num

lemma subRef_8 (a b c0 : Nat) (ha : a < 256) (hb : b < 256) (hc0 : c0 < 2) :
    subRef a b c0 8 = (a + 256 - b - c0) % 256 := by
  show (a % 2^8 + 2^8 - (b % 2^8 + c0)) % 2^8 = _
  norm_num
  rw [Nat.mod_eq_of_lt ha, Nat.mod_eq_of_lt hb]
  omega

lemma ite_lt_two (c : Prop) [Decidable c] : (if c then 1 else 0) < 2 := by
  split_ifs <;> omega

lemma bitOf_lt_two (r i : Nat) : bitOf r i < 2 := by
  unfold bitOf; split_ifs <;> omega

lemma xor_lt_two (u v : Nat) (hu : u < 2) (hv : v < 2) : u ^^^ v < 2 := by
  interval_cases u <;> interval_cases v <;> decide

lemma even_parity_lt_two (i : Nat) : even_parity i < 2 := by
  unfold even_parity; split_ifs <;> omega

lemma setbit_congr (c1 c2 : Prop) [Decidable c1] [Decidable c2] (h : c1 ↔ c2)
    (f m : Nat) : setbit c1 f m = setbit c2 f m := by
  simp only [setbit]
  exact if_congr h rfl rfl

lemma sum8_chain : ∀ c < 2, ∀ h < 2, ∀ z < 2, ∀ s < 2, ∀ x < 2, ∀ y < 2, ∀ p < 2,
    setbit (p ≠ 0) (setbit (y ≠ 0) (setbit (x ≠ 0) (setbit (s ≠ 0) (setbit (z ≠ 0)
        (setbit (h ≠ 0) (setbit (c ≠ 0) 0 qkz80_cpu_flags.CY) qkz80_cpu_flags.H)
        qkz80_cpu_flags.Z) qkz80_cpu_flags.S) qkz80_cpu_flags.X) qkz80_cpu_flags.Y)
      qkz80_cpu_flags.P
    = s * 0x80 + z * 0x40 + y * 0x20 + h * 0x10 + x * 0x08 + p * 0x04 + c * 0x01 := by
  decide

lemma diff8_chain : ∀ c < 2, ∀ h < 2, ∀ z < 2, ∀ s < 2, ∀ x < 2, ∀ y < 2, ∀ p < 2,
    setbit (p ≠ 0) (setbit (y ≠ 0) (setbit (x ≠ 0) (setbit (s ≠ 0) (setbit (z ≠ 0)
        (setbit (h ≠ 0) (setbit (c ≠ 0) 0 qkz80_cpu_flags.CY) qkz80_cpu_flags.H)
        qkz80_cpu_flags.Z) qkz80_cpu_flags.S) qkz80_cpu_flags.X) qkz80_cpu_flags.Y |||
        qkz80_cpu_flags.N)
      qkz80_cpu_flags.P
    = s * 0x80 + z * 0x40 + y * 0x20 + h * 0x10 + x * 0x08 + p * 0x04 + 0x02 + c * 0x01 := by
  decide

lemma fix8080_sum_byte : ∀ s < 2, ∀ z < 2, ∀ y < 2, ∀ h < 2, ∀ x < 2, ∀ p < 2, ∀ c < 2,
    qkz80_fix_flags CPUMode.MODE_8080
        (s * 0x80 + z * 0x40 + y * 0x20 + h * 0x10 + x * 0x08 + p * 0x04 + c * 0x01)
      = s * 0x80 + z * 0x40 + h * 0x10 + p * 0x04 + 0x02 + c * 0x01 := by
  decide

lemma fix8080_diff_byte : ∀ s < 2, ∀ z < 2, ∀ y < 2, ∀ h < 2, ∀ x < 2, ∀ p < 2, ∀ c < 2,
    qkz80_fix_flags CPUMode.MODE_8080
        (s * 0x80 + z * 0x40 + y * 0x20 + h * 0x10 + x * 0x08 + p * 0x04 + 0x02 + c * 0x01)
      = s * 0x80 + z * 0x40 + h * 0x10 + p * 0x04 + 0x02 + c * 0x01 := by
  decide

lemma bit_indicator8 (r : Nat) : (if r &&& 8 ≠ 0 then 1 else 0) = bitOf r 3 := by
  have h : (8:Nat) = 2^3 := by norm_num
  rw [h, bit_indicator]

lemma bit_indicator32 (r : Nat) : (if r &&& 32 ≠ 0 then 1 else 0) = bitOf r 5 := by
  have h : (32:Nat) = 2^5 := by norm_num
  rw [h, bit_indicator]

lemma bit_indicator128 (r : Nat) : (if r &&& 128 ≠ 0 then 1 else 0) = bitOf r 7 := by
  have h : (128:Nat) = 2^7 := by norm_num
  rw [h, bit_indicator]

lemma sum8_ref_z80 (a b c : Nat) (ha : a < 256) (hb : b < 256) (hc : c < 2) :
    qkz80_fix_flags CPUMode.MODE_Z80 (flags_from_sum8 CPUMode.MODE_Z80 (a+b+c) a b c)
      = reference_add8_flags CPUMode.MODE_Z80 a b c := by
  simp only [qkz80_fix_flags, flags_from_sum8, reference_add8_flags]
  rw [add8_bitwise_closed a b c hc]
  simp only [reduceCtorEq, if_false, if_true]
  rw [carryA_16 a b c ha hb hc, carryA_nib a b c hc, carryA_seven a b c hc,
    bit_indicator8, bit_indicator32, bit_indicator128]
  rw [sum8_chain _ (ite_lt_two _) _ (ite_lt_two _) _ (ite_lt_two _) _ (bitOf_lt_two _ _)
    _ (bitOf_lt_two _ _) _ (bitOf_lt_two _ _)
    _ (xor_lt_two _ _ (ite_lt_two _) (ite_lt_two _))]
  omega

lemma big_diff_and (a b c : Nat) (ha : a < 256) (hb : b < 256) (hc : c < 2) :
    big_diff a b c &&& 0xFF = (a + 256 - b - c) % 256 := by
  have h255 : (0xFF : Nat) = 2^8 - 1 := by norm_num
  rw [big_diff, h255, Nat.and_pow_two_sub_one_eq_mod]
  norm_num
  omega

lemma diff8080_H_iff (a b c : Nat) (ha : a < 256) (hb : b < 256) (hc : c < 2) :
    (mask8_not (a ^^^ (big_diff a b c &&& 0xFF) ^^^ b) &&& 0x10 ≠ 0)
      ↔ ((1 - (if a % 16 < b % 16 + c then 1 else 0)) ≠ 0) := by
  rw [big_diff_and a b c ha hb hc]
  have hand := Nat.and_two_pow (mask8_not (a ^^^ (a + 256 - b - c) % 256 ^^^ b)) 4
  norm_num at hand
  rw [hand]
  have h255 : (0xFF : Nat) = 2^8 - 1 := by norm_num
  simp only [mask8_not, h255]
  simp only [Nat.testBit_xor, Nat.testBit_two_pow_sub_one]
  simp only [Nat.testBit_to_div_mod]
  norm_num
  have key : (a + 256 - b - c) % 256 / 16 % 2
      = (a / 16 % 2 + b / 16 % 2 + (if a % 16 < b % 16 + c then 1 else 0)) % 2 := by
    split_ifs <;> omega
  rw [key]
  rcases Nat.mod_two_eq_zero_or_one (a / 16) with hu | hu <;>
    rcases Nat.mod_two_eq_zero_or_one (b / 16) with hv | hv <;>
    rw [hu, hv] <;> split_ifs <;> simp

lemma parity_byte_mod (x : Nat) : get_parity_of_byte (x &&& 0xFF) = even_parity (x % 256) := by
  have h255 : (0xFF : Nat) = 2^8 - 1 := by norm_num
  simp only [get_parity_of_byte, h255, Nat.and_pow_two_sub_one_eq_mod,
    Nat.mod_mod_of_dvd _ dvd_rfl]
  all_goals norm_num

lemma sum8_ref_8080 (a b c : Nat) (ha : a < 256) (hb : b < 256) (hc : c < 2) :
    qkz80_fix_flags CPUMode.MODE_8080 (flags_from_sum8 CPUMode.MODE_8080 (a+b+c) a b c)
      = reference_add8_flags CPUMode.MODE_8080 a b c := by
  simp only [flags_from_sum8, reference_add8_flags]
  rw [add8_bitwise_closed a b c hc]
  simp only [reduceCtorEq, if_false, if_true]
  rw [carryA_16 a b c ha hb hc, carryA_nib a b c hc, carryA_seven a b c hc,
    bit_indicator8, bit_indicator32, bit_indicator128, parity_byte_mod]
  rw [sum8_chain _ (ite_lt_two _) _ (ite_lt_two _) _ (ite_lt_two _) _ (bitOf_lt_two _ _)
    _ (bitOf_lt_two _ _) _ (bitOf_lt_two _ _) _ (even_parity_lt_two _)]
  rw [fix8080_sum_byte _ (bitOf_lt_two _ _) _ (ite_lt_two _) _ (bitOf_lt_two _ _)
    _ (ite_lt_two _) _ (bitOf_lt_two _ _) _ (even_parity_lt_two _) _ (ite_lt_two _)]
  all_goals omega

lemma diff8_ref_z80 (a b c : Nat) (ha : a < 256) (hb : b < 256) (hc : c < 2) :
    qkz80_fix_flags CPUMode.MODE_Z80 (flags_from_diff8 CPUMode.MODE_Z80 (big_diff a b c) a b c)
      = reference_sub8_flags CPUMode.MODE_Z80 a b c := by
  simp only [qkz80_fix_flags, flags_from_diff8, reference_sub8_flags]
  rw [sub8_bitwise_closed a b c hc]
  simp only [reduceCtorEq, if_false, if_true]
  rw [subRef_8 a b c ha hb hc, borS_8 a b c ha hb, borS_nib, borS_seven,
    bit_indicator8, bit_indicator32, bit_indicator128]
  rw [diff8_chain _ (ite_lt_two _) _ (ite_lt_two _) _ (ite_lt_two _) _ (bitOf_lt_two _ _)
    _ (bitOf_lt_two _ _) _ (bitOf_lt_two _ _)
    _ (xor_lt_two _ _ (ite_lt_two _) (ite_lt_two _))]
  all_goals omega

lemma diff8_ref_8080 (a b c : Nat) (ha : a < 256) (hb : b < 256) (hc : c < 2) :
    qkz80_fix_flags CPUMode.MODE_8080 (flags_from_diff8 CPUMode.MODE_8080 (big_diff a b c) a b c)
      = reference_sub8_flags CPUMode.MODE_8080 a b c := by
  simp only [flags_from_diff8, reference_sub8_flags]
  rw [sub8_bitwise_closed a b c hc]
  simp only [reduceCtorEq, if_false, if_true]
  rw [setbit_congr _ _ (diff8080_H_iff a b c ha hb hc)]
  rw [subRef_8 a b c ha hb hc, borS_8 a b c ha hb,
    bit_indicator8, bit_indicator32, bit_indicator128, parity_byte_mod]
  have hbd : big_diff a b c % 256 = (a + 256 - b - c) % 256 := by
    unfold big_diff; omega
  rw [hbd]
  rw [diff8_chain _ (ite_lt_two _) _ (by omega) _ (ite_lt_two _) _ (bitOf_lt_two _ _)
    _ (bitOf_lt_two _ _) _ (bitOf_lt_two _ _) _ (even_parity_lt_two _)]
  rw [fix8080_diff_byte _ (bitOf_lt_two _ _) _ (ite_lt_two _) _ (bitOf_lt_two _ _)
    _ (by omega) _ (bitOf_lt_two _ _) _ (even_parity_lt_two _) _ (ite_lt_two _)]
  all_goals omega

lemma and_pow_ne_iff (b i : Nat) : (b &&& 2^i ≠ 0) ↔ b.testBit i = true := by
  rw [Nat.and_two_pow]
  cases h : b.testBit i <;>
    simp [h, Nat.pos_iff_ne_zero.mp (Nat.two_pow_pos i)]

lemma and8_ne_iff (b : Nat) : (b &&& 8 ≠ 0) ↔ b.testBit 3 = true := by
  have h : (8:Nat) = 2^3 := by norm_num
  rw [h, and_pow_ne_iff]

lemma and32_ne_iff (b : Nat) : (b &&& 32 ≠ 0) ↔ b.testBit 5 = true := by
  have h : (32:Nat) = 2^5 := by norm_num
  rw [h, and_pow_ne_iff]

/-- C2: for every CP-style subtraction executed in Z80 mode (register,
memory, indexed and immediate forms all run the same flag sequence,
modelled by cp_exec), the X (bit 3) and Y (bit 5) flag bits of the
resulting flag byte equal bits 3 and 5 of the compared operand. -/
theorem c2_cp_xy_operand (rs : qkz80_reg_set) (b : Nat)
    (hmode : rs.cpu_mode = CPUMode.MODE_Z80) :
    (get_flags (cp_exec rs b)).testBit 3 = b.testBit 3 ∧
    (get_flags (cp_exec rs b)).testBit 5 = b.testBit 5 := by
  have hmode1 : (set_flags_from_diff8 rs (big_diff rs.A b 0) rs.A b 0).cpu_mode
      = CPUMode.MODE_Z80 := by
    simp [set_flags_from_diff8, set_flags, hmode]
  have h8 : b &&& 8 = (Bool.toNat (b.testBit 3)) * 8 := by
    have h := Nat.and_two_pow b 3; norm_num at h; exact h
  have h32 : b &&& 32 = (Bool.toNat (b.testBit 5)) * 32 := by
    have h := Nat.and_two_pow b 5; norm_num at h; exact h
  simp only [cp_exec, get_flags, set_flags, qkz80_fix_flags, hmode, hmode1, setbit,
    qkz80_cpu_flags.X, qkz80_cpu_flags.Y, reduceCtorEq, if_false]
  have t1 : Nat.testBit 215 3 = false := by decide
  have t2 : Nat.testBit 215 5 = false := by decide
  have t3 : Nat.testBit 8 3 = true := by decide
  have t4 : Nat.testBit 8 5 = false := by decide
  have t5 : Nat.testBit 32 3 = false := by decide
  have t6 : Nat.testBit 32 5 = true := by decide
  cases hb3 : b.testBit 3 <;> cases hb5 : b.testBit 5 <;>
    simp [h8, h32, hb3, hb5, mask8_not, Nat.testBit_or, Nat.testBit_and,
      t1, t2, t3, t4, t5, t6]


lemma get_flags_8080_lt (rs : qkz80_reg_set) (hmode : rs.cpu_mode = CPUMode.MODE_8080) :
    get_flags rs < 256 := by
  simp only [get_flags, qkz80_fix_flags, hmode, if_true, mask8_not]
  have h1 : rs.F &&& (0xFF ^^^ (qkz80_cpu_flags.UNUSED2 ||| qkz80_cpu_flags.UNUSED3)) < 2^8 :=
    Nat.lt_of_le_of_lt Nat.and_le_right (by decide)
  have h2 : qkz80_cpu_flags.UNUSED1 < 2^8 := by decide
  exact lt_of_lt_of_le (Nat.or_lt_two_pow h1 h2) (by norm_num)

lemma and255_eq_mod (x : Nat) : x &&& 0xFF = x % 256 := by
  have h : (0xFF : Nat) = 2^8 - 1 := by norm_num
  rw [h, Nat.and_pow_two_sub_one_eq_mod]

/-- C3: in 8080 mode the observable flag byte -- get_flags, and the low
byte of a read of the AF pair -- always has bits 3 and 5 equal to 0 and
bit 1 equal to 1, for every state whatsoever (each write and each read of
the flag byte goes through the fix_flags normalizer). -/
theorem c3_flags_8080_invariant (rs : qkz80_reg_set) (hmode : rs.cpu_mode = CPUMode.MODE_8080) :
    (get_flags rs).testBit 3 = false ∧ (get_flags rs).testBit 5 = false ∧
    (get_flags rs).testBit 1 = true ∧ get_reg16_AF rs &&& 0xFF = get_flags rs := by
  have hlt := get_flags_8080_lt rs hmode
  have hm215 : mask8_not (qkz80_cpu_flags.UNUSED2 ||| qkz80_cpu_flags.UNUSED3) = 215 := by
    decide
  have hu1 : qkz80_cpu_flags.UNUSED1 = 2 := rfl
  refine ⟨?_, ?_, ?_, ?_⟩
  · simp only [get_flags, qkz80_fix_flags, hmode, if_true, hm215, hu1]
    simp [Nat.testBit_or, Nat.testBit_and, (by decide : Nat.testBit 215 3 = false),
      (by decide : Nat.testBit 2 3 = false)]
  · simp only [get_flags, qkz80_fix_flags, hmode, if_true, hm215, hu1]
    simp [Nat.testBit_or, Nat.testBit_and, (by decide : Nat.testBit 215 5 = false),
      (by decide : Nat.testBit 2 5 = false)]
  · simp only [get_flags, qkz80_fix_flags, hmode, if_true, hm215, hu1]
    simp [Nat.testBit_or, Nat.testBit_and, (by decide : Nat.testBit 2 1 = true)]
  · rw [get_reg16_AF, qkz80_mk_int16, and255_eq_mod, and255_eq_mod, and255_eq_mod,
      Nat.mod_eq_of_lt hlt]
    rw [show (256 : Nat) = 2^8 from by norm_num]
    apply Nat.eq_of_testBit_eq
    intro i
    rcases Nat.lt_or_ge i 8 with hi | hi
    · have d1 : decide (i < 8) = true := by simp [hi]
      have d2 : decide (8 ≤ i) = false := by simp; omega
      simp only [Nat.testBit_mod_two_pow, Nat.testBit_or, Nat.testBit_shiftLeft, d1, d2,
        Bool.true_and, Bool.false_and, Bool.false_or]
    · have h2i : (256 : Nat) ≤ 2^i := by
        rw [show (256 : Nat) = 2^8 from by norm_num]
        exact Nat.pow_le_pow_right (by omega) hi
      have hgt : (get_flags rs).testBit i = false :=
        Nat.testBit_lt_two_pow (Nat.lt_of_lt_of_le hlt h2i)
      have d1 : decide (i < 8) = false := by simp; omega
      simp only [Nat.testBit_mod_two_pow, d1, Bool.false_and, hgt]

lemma block_ld_A (rs : qkz80_reg_set) (a b c : Nat) :
    (set_flags_from_block_ld rs a b c).A = rs.A := by
  simp [set_flags_from_block_ld, set_flags]

lemma block_ld_HL (rs : qkz80_reg_set) (a b c : Nat) :
    (set_flags_from_block_ld rs a b c).HL = rs.HL := by
  simp [set_flags_from_block_ld, set_flags]

lemma block_ld_DE (rs : qkz80_reg_set) (a b c : Nat) :
    (set_flags_from_block_ld rs a b c).DE = rs.DE := by
  simp [set_flags_from_block_ld, set_flags]

lemma block_ld_BC (rs : qkz80_reg_set) (a b c : Nat) :
    (set_flags_from_block_ld rs a b c).BC = rs.BC := by
  simp [set_flags_from_block_ld, set_flags]

lemma block_ld_PC (rs : qkz80_reg_set) (a b c : Nat) :
    (set_flags_from_block_ld rs a b c).PC = rs.PC := by
  simp [set_flags_from_block_ld, set_flags]

lemma block_ld_mode (rs : qkz80_reg_set) (a b c : Nat) :
    (set_flags_from_block_ld rs a b c).cpu_mode = rs.cpu_mode := by
  simp [set_flags_from_block_ld, set_flags]

lemma block_ld_flags_z80 (rs : qkz80_reg_set) (a_val byte : Nat)
    (hmode : rs.cpu_mode = CPUMode.MODE_Z80) :
    (get_flags (set_flags_from_block_ld rs a_val byte 0)).testBit 4 = false ∧
    (get_flags (set_flags_from_block_ld rs a_val byte 0)).testBit 1 = false ∧
    (get_flags (set_flags_from_block_ld rs a_val byte 0)).testBit 2 = false := by
  simp only [set_flags_from_block_ld, set_flags, get_flags, qkz80_fix_flags, hmode, setbit,
    qkz80_cpu_flags.S, qkz80_cpu_flags.Z, qkz80_cpu_flags.CY, qkz80_cpu_flags.P,
    qkz80_cpu_flags.X, qkz80_cpu_flags.Y, reduceCtorEq, if_false, if_true, ne_eq,
    not_true_eq_false]
  by_cases h3 : ((a_val + byte) % 256) &&& 8 = 0 <;>
    by_cases h5 : ((a_val + byte) % 256) &&& 2 = 0 <;>
    simp [h3, h5, Nat.testBit_or, Nat.testBit_and,
      (by decide : Nat.testBit 193 4 = false), (by decide : Nat.testBit 193 1 = false),
      (by decide : Nat.testBit 193 2 = false),
      (by decide : Nat.testBit 8 4 = false), (by decide : Nat.testBit 8 1 = false),
      (by decide : Nat.testBit 8 2 = false), (by decide : Nat.testBit 32 4 = false),
      (by decide : Nat.testBit 32 1 = false), (by decide : Nat.testBit 32 2 = false)]



lemma ldir_step_fields (m : qkz80_machine) :
    (ldir_step m).regs.HL = (m.regs.HL + 1) % 65536 ∧
    (ldir_step m).regs.DE = (m.regs.DE + 1) % 65536 ∧
    (ldir_step m).regs.BC = (m.regs.BC + 65536 - 1) % 65536 ∧
    (ldir_step m).regs.PC = (if m.regs.BC ≠ 1
      then ((m.regs.PC + 2) % 65536 + 65536 - 2) % 65536
      else (m.regs.PC + 2) % 65536) ∧
    (ldir_step m).regs.cpu_mode = m.regs.cpu_mode ∧
    (ldir_step m).regs.A = m.regs.A ∧
    (ldir_step m).mem = store_mem m.mem m.regs.DE (fetch_mem m.mem m.regs.HL) := by
  refine ⟨?_, ?_, ?_, ?_, ?_, ?_, ?_⟩ <;> simp only [ldir_step] <;> split_ifs <;>
    simp [block_ld_HL, block_ld_DE, block_ld_BC, block_ld_PC, block_ld_mode, block_ld_A]

lemma ldir_step_F (m : qkz80_machine) :
    (ldir_step m).regs.F =
      (set_flags_from_block_ld
        { m.regs with HL := (m.regs.HL + 1) % 65536, DE := (m.regs.DE + 1) % 65536,
                      BC := (m.regs.BC + 65536 - 1) % 65536, PC := (m.regs.PC + 2) % 65536 }
        m.regs.A (fetch_mem m.mem m.regs.HL) ((m.regs.BC + 65536 - 1) % 65536)).F := by
  simp only [ldir_step]
  split_ifs <;> rfl

lemma ldir_invariant (s : qkz80_machine)
    (hmode : s.regs.cpu_mode = CPUMode.MODE_Z80)
    (hpc : s.regs.PC = 0x100) (hHL : s.regs.HL = 0x1000)
    (hDE : s.regs.DE = 0x2000) (hBC : s.regs.BC = 0x100)
    (hbytes : ∀ a, s.mem a < 256) :
    ∀ k, k ≤ 256 →
      (ldir_run k s).regs.HL = 0x1000 + k ∧
      (ldir_run k s).regs.DE = 0x2000 + k ∧
      (ldir_run k s).regs.BC = 0x100 - k ∧
      (ldir_run k s).regs.PC = (if k < 256 then 0x100 else 0x102) ∧
      (ldir_run k s).regs.cpu_mode = CPUMode.MODE_Z80 ∧
      (∀ a, (ldir_run k s).mem a =
        if 0x2000 ≤ a ∧ a < 0x2000 + k then s.mem (a - 0x1000) else s.mem a) ∧
      (∀ a, (ldir_run k s).mem a < 256) := by
  intro k
  induction k with
  | zero =>
    intro _
    refine ⟨?_, ?_, ?_, ?_, ?_, ?_, ?_⟩
    · simp only [ldir_run, hHL]
    · simp only [ldir_run, hDE]
    · simp only [ldir_run, hBC]
    · simp only [ldir_run, hpc]
      norm_num
    · simp only [ldir_run, hmode]
    · intro a
      simp only [ldir_run]
      split_ifs with h
      · omega
      · rfl
    · intro a
      simp only [ldir_run]
      exact hbytes a
  | succ k ih =>
    intro hk1
    obtain ⟨ihHL, ihDE, ihBC, ihPC, ihmode, ihmem, ihlt⟩ := ih (by omega)
    have hk : k ≤ 255 := by omega
    obtain ⟨fHL, fDE, fBC, fPC, fmode, fA, fmem⟩ := ldir_step_fields (ldir_run k s)
    have hrun : ldir_run (k+1) s = ldir_step (ldir_run k s) := rfl
    have hfetch : fetch_mem (ldir_run k s).mem (ldir_run k s).regs.HL = s.mem (0x1000 + k) := by
      rw [fetch_mem, ihHL, Nat.mod_eq_of_lt (by omega)]
      rw [ihmem]
      split_ifs with h
      · omega
      · rfl
    have hbyte : s.mem (0x1000 + k) < 256 := hbytes _
    have hPCk : (ldir_run k s).regs.PC = 0x100 := by
      rw [ihPC, if_pos (by omega)]
    refine ⟨?_, ?_, ?_, ?_, ?_, ?_, ?_⟩
    · rw [hrun, fHL, ihHL]
      omega
    · rw [hrun, fDE, ihDE]
      omega
    · rw [hrun, fBC, ihBC]
      omega
    · rw [hrun, fPC, ihBC, hPCk]
      rcases Nat.lt_or_ge k 255 with hk255 | hk255
      · rw [if_pos (by omega : (0x100 - k : Nat) ≠ 1), if_pos (by omega : k + 1 < 256)]
      · rw [if_neg (by omega : ¬ ((0x100 - k : Nat) ≠ 1)), if_neg (by omega : ¬ (k + 1 < 256))]
    · rw [hrun, fmode, ihmode]
    · intro a
      rw [hrun, fmem]
      simp only [store_mem, hfetch]
      rw [ihDE, Nat.mod_eq_of_lt (by omega : 0x2000 + k < 65536)]
      split_ifs with ha h2 h2
      · rw [Nat.mod_eq_of_lt hbyte]
        have hae : a - 0x1000 = 0x1000 + k := by omega
        rw [hae]
      · exact absurd ⟨by omega, by omega⟩ h2
      · rw [ihmem, if_pos (by omega)]
      · rw [ihmem, if_neg (by omega)]
    · intro a
      rw [hrun, fmem]
      simp only [store_mem]
      split_ifs
      · exact Nat.mod_lt _ (by omega)
      · exact ihlt a

lemma fix_z80_id (f : Nat) : qkz80_fix_flags CPUMode.MODE_Z80 f = f := by
  simp [qkz80_fix_flags]

lemma block_ld_F_bits (rs : qkz80_reg_set) (a_val byte : Nat)
    (hmode : rs.cpu_mode = CPUMode.MODE_Z80) :
    ((set_flags_from_block_ld rs a_val byte 0).F).testBit 4 = false ∧
    ((set_flags_from_block_ld rs a_val byte 0).F).testBit 1 = false ∧
    ((set_flags_from_block_ld rs a_val byte 0).F).testBit 2 = false := by
  have h := block_ld_flags_z80 rs a_val byte hmode
  simp only [get_flags, block_ld_mode, hmode, fix_z80_id] at h
  exact h

lemma ldir_step_flags_z80 (m : qkz80_machine)
    (hmode : m.regs.cpu_mode = CPUMode.MODE_Z80) (hbc : m.regs.BC = 1) :
    (get_flags (ldir_step m).regs).testBit 4 = false ∧
    (get_flags (ldir_step m).regs).testBit 1 = false ∧
    (get_flags (ldir_step m).regs).testBit 2 = false := by
  have hF := ldir_step_F m
  rw [hbc] at hF
  have e0 : (1 + 65536 - 1) % 65536 = 0 := by norm_num
  rw [e0] at hF
  have hmodestep : (ldir_step m).regs.cpu_mode = m.regs.cpu_mode :=
    (ldir_step_fields m).2.2.2.2.1
  have hunf : get_flags (ldir_step m).regs = (ldir_step m).regs.F := by
    rw [get_flags, hmodestep, hmode, fix_z80_id]
  rw [hunf, hF]
  exact block_ld_F_bits _ _ _ hmode

/-- C4: a Z80-mode LDIR with HL=0x1000, DE=0x2000, BC=0x0100 run to
completion copies memory 0x1000..0x10FF to 0x2000..0x20FF, leaves BC=0
and PC past the instruction, and clears the H, N and P/V flags. -/
theorem c4_ldir_copy (s : qkz80_machine)
    (hmode : s.regs.cpu_mode = CPUMode.MODE_Z80)
    (hpc : s.regs.PC = 0x100) (hHL : s.regs.HL = 0x1000)
    (hDE : s.regs.DE = 0x2000) (hBC : s.regs.BC = 0x100)
    (hbytes : ∀ a, s.mem a < 256) :
    (∀ i < 256, (ldir_run 256 s).mem (0x2000 + i) = s.mem (0x1000 + i)) ∧
    (ldir_run 256 s).regs.BC = 0 ∧
    (ldir_run 256 s).regs.PC = 0x102 ∧
    (get_flags (ldir_run 256 s).regs).testBit 4 = false ∧
    (get_flags (ldir_run 256 s).regs).testBit 1 = false ∧
    (get_flags (ldir_run 256 s).regs).testBit 2 = false := by
  obtain ⟨iHL, iDE, iBC, iPC, imode, imem, _⟩ :=
    ldir_invariant s hmode hpc hHL hDE hBC hbytes 256 (le_refl 256)
  obtain ⟨jHL, jDE, jBC, jPC, jmode, jmem, _⟩ :=
    ldir_invariant s hmode hpc hHL hDE hBC hbytes 255 (by omega)
  have hstep : ldir_run 256 s = ldir_step (ldir_run 255 s) := rfl
  have hflags := ldir_step_flags_z80 (ldir_run 255 s) jmode (by rw [jBC])
  refine ⟨?_, ?_, ?_, ?_, ?_, ?_⟩
  · intro i hi
    rw [imem, if_pos (by omega)]
    have : (0x2000 : Nat) + i - 0x1000 = 0x1000 + i := by omega
    rw [this]
  · rw [iBC]
  · rw [iPC, if_neg (by omega)]
  · rw [hstep]
    exact hflags.1
  · rw [hstep]
    exact hflags.2.1
  · rw [hstep]
    exact hflags.2.2

-- table lemmas

lemma table_set_find (fs : List (Nat × OpenFile)) (fcb : Nat) (of : OpenFile) :
    find_open (table_set fs fcb of) fcb = some of := by
  induction fs with
  | nil => simp [table_set, find_open, List.find?]
  | cons p rest ih =>
    obtain ⟨k, v⟩ := p
    by_cases h : k = fcb
    · subst h
      simp [table_set, find_open, List.find?]
    · have hd : (decide ((k, v).1 = fcb)) = false := by simp [h]
      simp only [table_set, if_neg h, find_open, List.find?, hd]
      exact ih

lemma find_erase (fs : List (Nat × OpenFile)) (fcb : Nat) :
    find_open (table_erase fs fcb) fcb = none := by
  have h : List.find? (fun p => decide (p.1 = fcb)) (table_erase fs fcb) = none := by
    rw [List.find?_eq_none]
    intro x hx
    have := List.of_mem_filter hx
    simp only [ne_eq, decide_not, Bool.not_eq_true', decide_eq_false_iff_not] at this
    simp [this]
  unfold find_open
  rw [h]
  rfl

lemma host_close_not_mem (hs : List Nat) (h : Nat) : h ∉ host_close hs h := by
  intro hmem
  have := List.of_mem_filter hmem
  simp at this

lemma host_close_subset (hs : List Nat) (h x : Nat) (hx : x ∉ hs) :
    x ∉ host_close hs h := fun hmem => hx (List.mem_of_mem_filter hmem)

lemma close_all_mono (fs : List (Nat × OpenFile)) (hs : List Nat) (x : Nat)
    (hx : x ∉ hs) : x ∉ close_all_handles fs hs := by
  induction fs generalizing hs with
  | nil => exact hx
  | cons p rest ih =>
    exact ih (host_close hs p.2.handle) (host_close_subset hs p.2.handle x hx)

lemma close_all_covers (fs : List (Nat × OpenFile)) (hs : List Nat)
    (p : Nat × OpenFile) (hp : p ∈ fs) :
    p.2.handle ∉ close_all_handles fs hs := by
  induction fs generalizing hs with
  | nil => cases hp
  | cons q rest ih =>
    rcases List.mem_cons.mp hp with h | h
    · subst h
      exact close_all_mono rest (host_close hs p.2.handle) p.2.handle
        (host_close_not_mem hs p.2.handle)
    · exact ih (host_close hs q.2.handle) h

/-- C5: in TEXT mode with EOL conversion, reading host bytes "a\nb\n"
yields guest bytes "a\r\nb\r\n", and writing those guest bytes back
writes exactly "a\nb\n" to the host: the host-side round trip is the
identity. -/
theorem c5_text_roundtrip :
    (read_with_conversion c5_file 128).1 = [97, 13, 10, 98, 13, 10] ∧
    (write_with_conversion c5_file [97, 13, 10, 98, 13, 10]).1 = 4 ∧
    (write_with_conversion c5_file [97, 13, 10, 98, 13, 10]).2.output = [97, 10, 98, 10] := by
  refine ⟨?_, ?_, ?_⟩ <;>
    simp [read_with_conversion, read_conv_loop, write_with_conversion, write_conv_text,
      c5_file, CPM_EOF]

/-- C6 counterexample: reading an open file at EOF returns A=1, but the
DMA buffer is NOT padded with ^Z bytes -- the first DMA byte still holds
its old value 0, not 0x1A, refuting the padding half of the claim. -/
theorem c6_read_eof_counterexample :
    (bdos_read_sequential 512 c6_state).regA = 1 ∧
    (bdos_read_sequential 512 c6_state).mem 128 ≠ CPM_EOF := by
  decide

/-- C6 amended: for BDOS Read sequential on an open file whose sticky EOF
flag is set, A=1 is returned, the FCB current-record byte is still
incremented, and no other guest memory (in particular the DMA buffer) is
touched. -/
theorem c6_read_eof_amended (s : CPMEmulator) (fcb : Nat) (of : OpenFile)
    (hfind : find_open s.open_files fcb = some of) (heof : of.eof_seen = true) :
    (bdos_read_sequential fcb s).regA = 1 ∧
    (bdos_read_sequential fcb s).mem (fcb + 32) = (s.mem (fcb + 32) + 1) % 256 ∧
    (∀ a, a ≠ fcb + 32 → (bdos_read_sequential fcb s).mem a = s.mem a) := by
  simp only [bdos_read_sequential, hfind, read_with_conversion, heof, if_true,
    List.length_nil, store_mem8]
  refine ⟨rfl, ?_, ?_⟩
  · simp
  · intro a ha
    simp [ha]

/-- C6 witness: the amended theorem applied at a concrete EOF state. -/
theorem c6_read_eof_amended_witness :
    (bdos_read_sequential 512 c6_state).regA = 1 ∧
    (bdos_read_sequential 512 c6_state).mem 544 = 1 := by
  have h := c6_read_eof_amended c6_state 512 eof_file rfl rfl
  exact ⟨h.1, h.2.1⟩

/-- C7 counterexample: a Write sequential on an unopened FCB whose
auto-open SUCCEEDS (the table entry exists afterwards) can still return
A=0xFF, when the translated write produces zero bytes (the DMA buffer
starts with ^Z in text mode), refuting "0xFF only when the open fails". -/
theorem c7_write_unopened_counterexample :
    (bdos_write_sequential (some (FileMode.MODE_TEXT, true, [])) 512 c7_state).regA = 0xFF ∧
    (find_open (bdos_write_sequential (some (FileMode.MODE_TEXT, true, []))
      512 c7_state).open_files 512).isSome = true := by
  decide

lemma write_seq_body_open_files (fcb : Nat) (of : OpenFile) (s : CPMEmulator) :
    (write_seq_body fcb of s).open_files = table_set s.open_files fcb
      (write_with_conversion { of with write_mode := true } (dma_block s)).2 := by
  simp only [write_seq_body, gt_iff_lt]
  split_ifs <;> rfl

lemma write_seq_body_regA (fcb : Nat) (of : OpenFile) (s : CPMEmulator) :
    (write_seq_body fcb of s).regA =
      if 0 < (write_with_conversion { of with write_mode := true } (dma_block s)).1
      then 0 else 0xFF := by
  simp only [write_seq_body, gt_iff_lt]
  split_ifs <;> rfl

lemma write_seq_body_cr (fcb : Nat) (of : OpenFile) (s : CPMEmulator) :
    (write_seq_body fcb of s).mem (fcb + 32) = (s.mem (fcb + 32) + 1) % 256 := by
  simp only [write_seq_body, gt_iff_lt, store_mem8]
  split_ifs <;> simp

/-- C7 amended: Write sequential on an unopened FCB auto-opens the file
(it does not create one).  When the open oracle fails, A=0xFF and the
table is unchanged; when it succeeds an entry exists afterwards and
A=0xFF exactly when the translated write produced zero bytes, else A=0. -/
theorem c7_write_unopened_amended (s : CPMEmulator) (fcb : Nat) (mode : FileMode) (eol : Bool)
    (content : List Nat) (hnone : find_open s.open_files fcb = none) :
    ((bdos_write_sequential none fcb s).regA = 0xFF ∧
      (bdos_write_sequential none fcb s).open_files = s.open_files) ∧
    ((find_open (bdos_write_sequential (some (mode, eol, content)) fcb s).open_files
        fcb).isSome = true ∧
      (bdos_write_sequential (some (mode, eol, content)) fcb s).regA =
        (if 0 < (write_with_conversion
            { handle := s.next_handle, mode := mode, eol_convert := eol, eof_seen := false,
              write_mode := true, write_buffer := [], input := content, output := [] }
            (dma_block (bdos_open_file (some (mode, eol, content)) fcb s))).1
         then 0 else 0xFF)) := by
  constructor
  · simp [bdos_write_sequential, bdos_open_file, hnone]
  · have hfind : find_open (bdos_open_file (some (mode, eol, content)) fcb s).open_files fcb
        = some { handle := s.next_handle, mode := mode, eol_convert := eol, eof_seen := false,
                 write_mode := false, write_buffer := [], input := content, output := [] } := by
      simp only [bdos_open_file]
      exact table_set_find _ _ _
    simp only [bdos_write_sequential, hnone, hfind]
    constructor
    · rw [write_seq_body_open_files, table_set_find]
      simp
    · rw [write_seq_body_regA]

/-- C8: BDOS Close always returns A=0: with an open entry it closes the
host handle and erases the entry; without one it only sets A=0; a second
close of the same FCB also returns 0 and leaves the table unchanged. -/
theorem c8_close_always_zero (s : CPMEmulator) (fcb : Nat) :
    (bdos_close_file fcb s).regA = 0 ∧
    (find_open s.open_files fcb = none → bdos_close_file fcb s = { s with regA := 0 }) ∧
    (∀ of, find_open s.open_files fcb = some of →
      bdos_close_file fcb s =
        { s with open_files := table_erase s.open_files fcb,
                 host_open_handles := host_close s.host_open_handles of.handle,
                 regA := 0 }) ∧
    (bdos_close_file fcb (bdos_close_file fcb s)).open_files =
      (bdos_close_file fcb s).open_files ∧
    (bdos_close_file fcb (bdos_close_file fcb s)).regA = 0 := by
  have close_none : ∀ t : CPMEmulator, find_open t.open_files fcb = none →
      bdos_close_file fcb t = { t with regA := 0 } := by
    intro t ht
    simp [bdos_close_file, ht]
  cases hf : find_open s.open_files fcb with
  | none =>
    have h1 := close_none s hf
    have h2 := close_none { s with regA := 0 } hf
    refine ⟨?_, fun _ => h1, ?_, ?_, ?_⟩
    · rw [h1]
    · intro of hof
      cases hof
    · rw [h1, h2]
    · rw [h1, h2]
  | some of =>
    have herase : bdos_close_file fcb s =
        { s with open_files := table_erase s.open_files fcb,
                 host_open_handles := host_close s.host_open_handles of.handle,
                 regA := 0 } := by
      simp [bdos_close_file, hf]
    have hsecond : find_open (bdos_close_file fcb s).open_files fcb = none := by
      rw [herase]
      exact find_erase s.open_files fcb
    have h2 := close_none _ hsecond
    refine ⟨?_, ?_, ?_, ?_, ?_⟩
    · rw [herase]
    · intro h
      cases h
    · intro of2 hof2
      cases hof2
      exact herase
    · rw [h2]
    · rw [h2]

/-- C9 counterexample: opening a file on an FCB address that already has
an open entry replaces the entry WITHOUT closing the old host handle --
handle 7 is still tracked as open after the reopen, refuting the claimed
close-before-replace. -/
theorem c9_reopen_leak_counterexample :
    7 ∈ (bdos_open_file (some (FileMode.MODE_BINARY, false, []))
      512 c9_state).host_open_handles ∧
    ((find_open (bdos_open_file (some (FileMode.MODE_BINARY, false, []))
      512 c9_state).open_files 512).map (fun o => o.handle) = some 8) := by
  decide

/-- C9 amended: a reopen on a live FCB address replaces the table entry
with one owning a fresh handle while the old handle stays open (it is
leaked, not closed); disk reset and drive reset do close every handle
owned by a table entry and empty the table. -/
theorem c9_reopen_leak_amended (s : CPMEmulator) (fcb : Nat) (mode : FileMode) (eol : Bool)
    (content : List Nat) (of : OpenFile)
    (hfind : find_open s.open_files fcb = some of)
    (hmem : of.handle ∈ s.host_open_handles) :
    of.handle ∈ (bdos_open_file (some (mode, eol, content)) fcb s).host_open_handles ∧
    find_open (bdos_open_file (some (mode, eol, content)) fcb s).open_files fcb =
      some { handle := s.next_handle, mode := mode, eol_convert := eol, eof_seen := false,
             write_mode := false, write_buffer := [], input := content, output := [] } ∧
    (∀ p ∈ s.open_files, p.2.handle ∉ (bdos_reset_disk s).host_open_handles) ∧
    (bdos_reset_disk s).open_files = [] ∧
    (∀ p ∈ s.open_files, p.2.handle ∉ (bdos_reset_drive s).host_open_handles) ∧
    (bdos_reset_drive s).open_files = [] := by
  refine ⟨?_, ?_, ?_, rfl, ?_, rfl⟩
  · simp only [bdos_open_file]
    exact List.mem_cons_of_mem _ hmem
  · simp only [bdos_open_file]
    exact table_set_find _ _ _
  · intro p hp
    exact close_all_covers s.open_files s.host_open_handles p hp
  · intro p hp
    exact close_all_covers s.open_files s.host_open_handles p hp

/-- C10: in Z80 mode a run of five or more 0xDD/0xFD prefix bytes is
capped after four prefixes: the fifth prefix byte is dispatched as a
terminal opcode, reaches the unknown-opcode default branch, and the
process exits with status 1. -/
theorem c10_prefix_cap (mem : Nat → Nat) (pc0 : Nat)
    (h : ∀ i < 5, mem ((pc0 + i) % 65536) = 0xDD ∨ mem ((pc0 + i) % 65536) = 0xFD) :
    execute_decode mem pc0 =
      ExecOutcome.fatalExit 1 (mem ((pc0 + 4) % 65536)) ((pc0 + 5) % 65536) := by
  have h0 := h 0 (by omega)
  have h1 := h 1 (by omega)
  have h2 := h 2 (by omega)
  have h3 := h 3 (by omega)
  have h4 := h 4 (by omega)
  rw [Nat.add_zero] at h0
  have m1 : ((pc0 + 1) % 65536 + 1) % 65536 = (pc0 + 2) % 65536 := by omega
  have m2 : ((pc0 + 2) % 65536 + 1) % 65536 = (pc0 + 3) % 65536 := by omega
  have m3 : ((pc0 + 3) % 65536 + 1) % 65536 = (pc0 + 4) % 65536 := by omega
  have m4 : ((pc0 + 4) % 65536 + 1) % 65536 = (pc0 + 5) % 65536 := by omega
  have mm1 : (pc0 + 1) % 65536 % 65536 = (pc0 + 1) % 65536 := by omega
  rcases h0 with h0 | h0 <;> rcases h1 with h1 | h1 <;> rcases h2 with h2 | h2 <;>
    rcases h3 with h3 | h3 <;> rcases h4 with h4 | h4 <;>
    simp [execute_decode, ddfd_scan, fetch_mem, m1, m2, m3, m4, mm1, h0, h1, h2, h3, h4]

/-- C1: for all 8-bit operands and carry/borrow-in, the flag byte stored by
set_flags_from_sum8 / set_flags_from_diff8 (the ADD/ADC/SUB/SBC/CP flag
builders running the bit-by-bit carry simulation) equals the reference flag
byte computed from the hardware carry/borrow propagation, with P = parity of
the result low byte in 8080 mode and P = carry-out-7 xor carry-out-6
(overflow) in Z80 mode. -/
theorem c1_arith8_flags (rs : qkz80_reg_set) (a b c : Nat)
    (ha : a < 256) (hb : b < 256) (hc : c < 2) :
    (set_flags_from_sum8 rs (a + b + c) a b c).F =
      reference_add8_flags rs.cpu_mode a b c ∧
    (set_flags_from_diff8 rs (big_diff a b c) a b c).F =
      reference_sub8_flags rs.cpu_mode a b c := by
  have e1 : (set_flags_from_sum8 rs (a + b + c) a b c).F
      = qkz80_fix_flags rs.cpu_mode (flags_from_sum8 rs.cpu_mode (a + b + c) a b c) := rfl
  have e2 : (set_flags_from_diff8 rs (big_diff a b c) a b c).F
      = qkz80_fix_flags rs.cpu_mode (flags_from_diff8 rs.cpu_mode (big_diff a b c) a b c) :=
    rfl
  rw [e1, e2]
  cases hm : rs.cpu_mode with
  | MODE_8080 => exact ⟨sum8_ref_8080 a b c ha hb hc, diff8_ref_8080 a b c ha hb hc⟩
  | MODE_Z80 => exact ⟨sum8_ref_z80 a b c ha hb hc, diff8_ref_z80 a b c ha hb hc⟩

/-- C1 witness: the theorem applied at 0x7F + 1 in Z80 mode. -/
theorem c1_arith8_flags_witness :
    (set_flags_from_sum8 c1_regs (0x7F + 1 + 0) 0x7F 1 0).F =
      reference_add8_flags c1_regs.cpu_mode 0x7F 1 0 ∧
    (set_flags_from_diff8 c1_regs (big_diff 0x7F 1 0) 0x7F 1 0).F =
      reference_sub8_flags c1_regs.cpu_mode 0x7F 1 0 :=
  c1_arith8_flags c1_regs 0x7F 1 0 (by decide) (by decide) (by decide)

/-- C2 witness: the theorem applied to a CP of 0x28 in Z80 mode. -/
theorem c2_cp_xy_operand_witness :
    (get_flags (cp_exec c2_regs 0x28)).testBit 3 = Nat.testBit 0x28 3 ∧
    (get_flags (cp_exec c2_regs 0x28)).testBit 5 = Nat.testBit 0x28 5 :=
  c2_cp_xy_operand c2_regs 0x28 rfl

/-- C3 witness: the invariant applied at an 8080 state with F = 0xFF. -/
theorem c3_flags_8080_invariant_witness :
    (get_flags c3_regs).testBit 3 = false ∧ (get_flags c3_regs).testBit 5 = false ∧
    (get_flags c3_regs).testBit 1 = true ∧ get_reg16_AF c3_regs &&& 0xFF = get_flags c3_regs :=
  c3_flags_8080_invariant c3_regs rfl

/-- C4 witness: the theorem applied at a concrete machine. -/
theorem c4_ldir_copy_witness :
    (ldir_run 256 c4_machine).mem 0x2000 = c4_machine.mem 0x1000 ∧
    (ldir_run 256 c4_machine).regs.BC = 0 ∧
    (get_flags (ldir_run 256 c4_machine).regs).testBit 4 = false :=
  have h := c4_ldir_copy c4_machine rfl rfl rfl rfl rfl
    (fun a => Nat.mod_lt a (by decide))
  ⟨h.1 0 (by decide), h.2.1, h.2.2.2.1⟩

/-- C7 witness: the amended theorem at a concrete unopened-FCB state, in the
failing-open and the successful binary-write instantiations. -/
theorem c7_write_unopened_amended_witness :
    (bdos_write_sequential none 512 c7_state).regA = 0xFF ∧
    (bdos_write_sequential (some (FileMode.MODE_BINARY, false, [])) 512 c7_state).regA = 0 :=
  have h := c7_write_unopened_amended c7_state 512 FileMode.MODE_BINARY false [] rfl
  ⟨h.1.1, by rw [h.2.2]; decide⟩

/-- C8 witness: the theorem applied at a concrete one-entry state. -/
theorem c8_close_always_zero_witness :
    (bdos_close_file 512 c6_state).regA = 0 ∧
    (bdos_close_file 512 (bdos_close_file 512 c6_state)).regA = 0 :=
  ⟨(c8_close_always_zero c6_state 512).1, (c8_close_always_zero c6_state 512).2.2.2.2⟩

/-- C9 witness: the amended theorem applied at a concrete double-open. -/
theorem c9_reopen_leak_amended_witness :
    7 ∈ (bdos_open_file (some (FileMode.MODE_TEXT, true, []))
      512 c9_state).host_open_handles ∧
    (bdos_reset_disk c9_state).open_files = [] :=
  have h := c9_reopen_leak_amended c9_state 512 FileMode.MODE_TEXT true [] c9_old_file
    rfl (by decide)
  ⟨h.1, h.2.2.2.1⟩

/-- C10 witness: the theorem applied to memory filled with 0xDD. -/
theorem c10_prefix_cap_witness :
    execute_decode (fun _ => 0xDD) 256 = ExecOutcome.fatalExit 1 0xDD 261 :=
  c10_prefix_cap (fun _ => 0xDD) 256 (fun i _ => Or.inl rfl)
